import Mathlib

/-!
Verification of the groklang execution pipeline (shallow embedding).

The definitions below are translated from the Rust sources of the repository:
  * `src/grok/src/vm.rs`        — values, heap (mark-sweep GC), the stack VM, actors
  * `src/grok/src/ir.rs`        — the generic IR (functions, blocks, opcodes)
  * `src/grok/src/optimizations.rs` — specializer, inline cache, hot-path tracker,
                                   the optimized VM
  * `src/grok/src/jit.rs`       — the Cranelift-based native code generator

Modelling conventions:
  * Rust `HashMap`s are modelled as association lists with overwrite-on-insert
    (`ainsert` / `alookup`); iteration order of a `HashMap` is unspecified in
    Rust, the list order fixes one admissible order.
  * `i64` arithmetic uses unbounded `Int` with an explicit two's-complement
    wrap (`wrap64`) where Rust release builds wrap (`+`, `-`, `*`); `i64`
    division is `Int.tdiv` (Rust `/` truncates toward zero) and the two cases
    where Rust's `/` panics (divide by zero is prevented by an explicit check
    in the source; `i64::MIN / -1` overflows) are modelled explicitly.
  * `f64` payloads are carried as uninterpreted bit patterns (`Nat`); no claim
    under verification exercises float arithmetic or float equality.
  * A Rust panic (out-of-bounds index, failed unwrap) is a distinguished
    `crash` outcome, never silently absorbed.
-/

namespace Grok

/-- Association-list lookup: first binding of the key wins
(models `HashMap::get`). -/
def alookup {κ α : Type} [DecidableEq κ] : List (κ × α) → κ → Option α
  | [], _ => none
  | (k', v) :: rest, k => if k' = k then some v else alookup rest k

/-- Association-list insert with overwrite (models `HashMap::insert`).
Keeps keys unique when the list was built only with `ainsert`. -/
def ainsert {κ α : Type} [DecidableEq κ] : List (κ × α) → κ → α → List (κ × α)
  | [], k, v => [(k, v)]
  | (k', v') :: rest, k, v =>
      if k' = k then (k, v) :: rest else (k', v') :: ainsert rest k v

/-- In-place update of the value bound to a key, if present
(models `HashMap::get_mut`). -/
def amodify {κ α : Type} [DecidableEq κ] : List (κ × α) → κ → (α → α) → List (κ × α)
  | [], _, _ => []
  | (k', v) :: rest, k, f =>
      if k' = k then (k', f v) :: rest else (k', v) :: amodify rest k f

/-- Two's-complement wrap to `i64` (Rust release-build wrapping semantics). -/
def wrap64 (n : Int) : Int := (n + 2 ^ 63) % 2 ^ 64 - 2 ^ 63

/-- Source: `i64::MIN`. -/
def i64min : Int := -(2 ^ 63)

/-- Source: `enum Value` of `vm.rs`.  `float` carries the `f64` bit pattern
uninterpreted. -/
inductive Value where
  | int : Int → Value
  | float : Nat → Value
  | bool : Bool → Value
  | object : Nat → Value
  | actor : Nat → Value
  | unit : Value
deriving DecidableEq, Repr

/-- Source: `enum HeapObject` of `vm.rs`: a boxed string or a struct with a
field-name → value mapping. -/
inductive HeapObject where
  | str : String → HeapObject
  | struct : String → List (String × Value) → HeapObject
deriving DecidableEq, Repr

/-- Source: `struct Heap` of `vm.rs`: sparse object vector, mark bits, free list. -/
structure Heap where
  objects : List (Option HeapObject)
  marked : List Bool
  free_list : List Nat
deriving DecidableEq, Repr

/-- Source: `Heap::new`. -/
def Heap.new : Heap := ⟨[], [], []⟩

/-- Source: `Heap::alloc`: reuse the most recently freed index (`Vec::pop` takes the
last element) or append.  The free-list reuse writes with `List.set`, which is
a no-op out of bounds where Rust would panic; the heap invariant (claim C10)
keeps free-list indices in bounds. -/
def Heap.alloc (h : Heap) (obj : HeapObject) : Heap × Nat :=
  match h.free_list.getLast? with
  | some idx =>
      ({ h with objects := h.objects.set idx (some obj),
                free_list := h.free_list.dropLast }, idx)
  | none =>
      let idx := h.objects.length
      ({ h with objects := h.objects ++ [some obj],
                marked := h.marked ++ [false] }, idx)

/-- Source: `Heap::get`. -/
def Heap.get (h : Heap) (idx : Nat) : Option HeapObject :=
  match h.objects.get? idx with
  | none => none
  | some o => o

/-- Number of clear mark bits; the termination measure of marking. -/
def Heap.unmarkedCount (h : Heap) : Nat := h.marked.count false

/-- The values stored in a struct's field map. -/
def fieldValues (fields : List (String × Value)) : List Value :=
  fields.map Prod.snd

theorem count_false_set_true_lt (l : List Bool) (idx : Nat)
    (h : l.get? idx = some false) :
    (l.set idx true).count false < l.count false := by
  induction l generalizing idx with
  | nil => simp at h
  | cons b rest ih =>
    cases idx with
    | zero =>
      simp only [List.get?] at h
      cases h
      simp [List.count_cons]
    | succ n =>
      simp only [List.get?] at h
      have := ih n h
      simp only [List.set, List.count_cons]
      omega

/-- Source: `Heap::mark_value` of `vm.rs`, phrased as a depth-first worklist: marking a
value whose index is unmarked sets its bit and, for a struct, pushes the field
values in front of the rest of the worklist — exactly the order of the Rust
recursion.  `none` models the Rust panic on an out-of-bounds index.  Only
`marked` changes. -/
def markWork (h : Heap) (ws : List Value) : Option Heap :=
  match ws with
  | [] => some h
  | v :: rest =>
    match v with
    | Value.object idx =>
      match hm : h.marked.get? idx with
      | none => none
      | some true => markWork h rest
      | some false =>
        let h1 : Heap := { h with marked := h.marked.set idx true }
        match h1.objects.get? idx with
        | none => none
        | some none => markWork h1 rest
        | some (some (HeapObject.str _)) => markWork h1 rest
        | some (some (HeapObject.struct _ fields)) =>
            markWork h1 (fieldValues fields ++ rest)
    | _ => markWork h rest
termination_by (h.unmarkedCount, ws.length)
decreasing_by
  all_goals
    simp only [Heap.unmarkedCount, List.length_cons]
    first
      | exact Prod.Lex.right _ (Nat.lt_succ_self _)
      | exact Prod.Lex.left _ _ (count_false_set_true_lt _ _ hm)

/-- The sweep loop of `Heap::gc`: for every index in order, an occupied
unmarked slot is cleared and pushed onto the free list.  Index accesses are in
bounds whenever `marked` and `objects` have equal length (Rust panics
otherwise; the GC theorems carry that hypothesis). -/
def sweepFrom (h : Heap) : List Nat → Heap
  | [] => h
  | i :: rest =>
      if h.marked.getD i false = false ∧ (h.objects.getD i none).isSome then
        sweepFrom { h with objects := h.objects.set i none,
                           free_list := h.free_list ++ [i] } rest
      else sweepFrom h rest

/-- Source: `Heap::gc` of `vm.rs`: clear all mark bits, mark from the roots (operand
stack, every frame's locals, globals — in that order), then sweep.
`none` models a Rust panic during marking. -/
def Heap.gcRun (h : Heap) (roots : List Value) : Option Heap :=
  let h0 : Heap := { h with marked := h.marked.map (fun _ => false) }
  match markWork h0 roots with
  | none => none
  | some h1 => some (sweepFrom h1 (List.range h1.objects.length))

/-- An in-bounds value: an `Object` handle must index into the object
vector. -/
def valueInBounds (len : Nat) (v : Value) : Prop :=
  match v with
  | Value.object j => j < len
  | _ => True

instance (len : Nat) (v : Value) : Decidable (valueInBounds len v) := by
  cases v <;> simp only [valueInBounds] <;> infer_instance

/-- A well-formed heap slot: a stored struct holds only in-bounds values. -/
def objOK (len : Nat) (o : Option HeapObject) : Prop :=
  match o with
  | some (HeapObject.struct _ fields) => ∀ v ∈ fieldValues fields, valueInBounds len v
  | _ => True

instance (len : Nat) (o : Option HeapObject) : Decidable (objOK len o) := by
  rcases o with _ | o
  · simp only [objOK]; infer_instance
  · cases o <;> simp only [objOK] <;> infer_instance

/-- Heap well-formedness: mark array in step with the object vector, and all
stored struct fields in bounds. -/
def Heap.wf (h : Heap) : Prop :=
  h.objects.length = h.marked.length ∧ ∀ o ∈ h.objects, objOK h.objects.length o

/-- The structural invariant of claim C10: `objects.len() == marked.len()`,
and every free-list index in bounds. -/
def Heap.inv (h : Heap) : Prop :=
  h.objects.length = h.marked.length ∧ ∀ i ∈ h.free_list, i < h.objects.length

instance (h : Heap) : Decidable h.wf := by
  unfold Heap.wf
  infer_instance

instance (h : Heap) : Decidable h.inv := by
  unfold Heap.inv
  infer_instance

/-- Reachability over the heap's object graph from a list of root values:
a root `Object(i)` reaches `i`; a reached struct reaches every index held in
its fields (cycles included — the relation is inductive over derivations, not
over the graph). -/
inductive ReachesW (objects : List (Option HeapObject)) (ws : List Value) : Nat → Prop where
  | root (i : Nat) : Value.object i ∈ ws → ReachesW objects ws i
  | step (i j : Nat) (name : String) (fields : List (String × Value)) :
      ReachesW objects ws i →
      objects.get? i = some (some (HeapObject.struct name fields)) →
      Value.object j ∈ fieldValues fields →
      ReachesW objects ws j

/-! ### IR (`ir.rs`) -/

/-- Source: `enum Opcode` of `ir.rs`. -/
inductive Opcode where
  | pushInt : Int → Opcode
  | pushFloat : Nat → Opcode
  | pushStr : String → Opcode
  | pushBool : Bool → Opcode
  | loadVar : String → Opcode
  | storeVar : String → Opcode
  | loadField : String → Opcode
  | add | sub | mul | div | eq | ne | lt | gt | le | ge : Opcode
  | jmp : String → Opcode
  | jmpIfFalse : String → Opcode
  | pushStruct : String → List String → Opcode
  | call : String → Nat → Opcode
  | ret : Opcode
  | spawn : String → Nat → Opcode
  | send : Opcode
  | receive : Opcode
deriving DecidableEq, Repr

/-- Source: `struct IRInstruction`. -/
structure IRInstruction where
  opcode : Opcode
deriving DecidableEq, Repr

/-- Source: `struct IRBlock`. -/
structure IRBlock where
  label : String
  instructions : List IRInstruction
deriving DecidableEq, Repr

/-- Source: `struct IRFunction`. -/
structure IRFunction where
  name : String
  params : List String
  blocks : List IRBlock
deriving DecidableEq, Repr

/-! ### VM (`vm.rs`) -/

/-- Source: `struct Frame` of `vm.rs`; `locals` is a `HashMap<String, Value>`. -/
structure Frame where
  func_name : String
  current_block_idx : Nat
  current_instr_idx : Nat
  locals : List (String × Value)
deriving DecidableEq, Repr

/-- Source: `enum SupervisionPolicy`. -/
inductive SupervisionPolicy where
  | oneForOne : SupervisionPolicy
deriving DecidableEq, Repr

/-- Source: `enum ActorStatus`. -/
inductive ActorStatus where
  | running | blockedOnReceive | failed | stopped : ActorStatus
deriving DecidableEq, Repr

/-- Source: `struct ActorMetadata`.  The `mailbox_tx` sender end of the unbounded
channel is modelled by the channel state itself: the queued messages and
whether the receiver end is still alive (`mailbox_open`; it is closed once the
target's task has finished, i.e. the target already Stopped/Failed). -/
structure ActorMetadata where
  id : Nat
  func_name : String
  args : List Value
  parent_id : Option Nat
  children : List Nat
  policy : SupervisionPolicy
  status : ActorStatus
  mailbox : List Value
  mailbox_open : Bool
deriving DecidableEq, Repr

/-- Source: `struct ActorRegistry` (the broadcast channel carries no state to model). -/
structure ActorRegistry where
  actors : List (Nat × ActorMetadata)
  next_id : Nat
deriving DecidableEq, Repr

/-- The roots `Heap::gc` is called with at the VM's GC safepoint:
operand stack, then every frame's locals, then the globals. -/
def gcRoots (stack : List Value) (call_stack : List Frame)
    (globals : List (String × Value)) : List Value :=
  stack ++ call_stack.flatMap (fun f => fieldValues f.locals) ++ fieldValues globals

/-- Source: `Heap::gc` with the source signature: roots are the operand stack, every
frame's locals, and the globals. -/
def Heap.gc (h : Heap) (stack : List Value) (call_stack : List Frame)
    (globals : List (String × Value)) : Option Heap :=
  h.gcRun (gcRoots stack call_stack globals)

/-- Source: `struct VM` of `vm.rs` together with the loop-local state of
`VM::execute` (`gc_timer`) and the actor-task arguments (`mailbox`).
`spawned` records the interpreter tasks `Spawn` has started; the sequential
step model registers them but does not interleave their execution. -/
structure VMState where
  stack : List Value
  call_stack : List Frame
  functions : List (String × IRFunction)
  globals : List (String × Value)
  heap : Heap
  registry : ActorRegistry
  current_actor_id : Option Nat
  gc_timer : Nat
  mailbox : Option (List Value)
  spawned : List (Nat × String × List Value)
deriving DecidableEq, Repr

/-- Outcome of one iteration of the `VM::execute` loop. -/
inductive StepOut where
  /-- the loop continues with the new state -/
  | next (vm : VMState)
  /-- the execution returned `Ok(v)` -/
  | done (v : Value) (vm : VMState)
  /-- the execution returned `Err(msg)` -/
  | fail (msg : String) (vm : VMState)
  /-- the actor is suspended in `Receive` on an empty mailbox -/
  | blocked (vm : VMState)
  /-- a Rust panic (out-of-bounds index / unwrap failure) -/
  | crash
  /-- fuel exhausted (model artifact, not a program outcome) -/
  | fuelOut (vm : VMState)
deriving DecidableEq, Repr

/-- Source: `VM::set_actor_status`. -/
def setActorStatus (vm : VMState) (id : Nat) (status : ActorStatus) : VMState :=
  let actors' := amodify vm.registry.actors id (fun m => { m with status := status })
  { vm with registry := { vm.registry with actors := actors' } }

/-- The `tokio::select!` arms of `Receive` in `VM::execute`: either the
mailbox delivers (`some msg`), the mailbox is closed (`none`), or the deadlock
broadcast fires. -/
inductive SelectArm where
  | message : Option Value → SelectArm
  | deadlock : SelectArm
deriving DecidableEq, Repr

/-- Lines 513–536 of `vm.rs`, after the actor's status has been set to
`BlockedOnReceive`: resume from the `tokio::select!`.  On the deadlock arm the
execution returns the abort error (status stays `BlockedOnReceive`); on a
message the status returns to `Running` and the message is pushed; a closed
mailbox is an error. -/
def receiveResume (vm : VMState) (arm : SelectArm) : StepOut :=
  match arm with
  | SelectArm.deadlock => StepOut.fail "Execution aborted due to deadlock" vm
  | SelectArm.message m =>
    let vm := match vm.current_actor_id with
      | some id => setActorStatus vm id ActorStatus.running
      | none => vm
    match m with
    | some msg => StepOut.next { vm with stack := msg :: vm.stack }
    | none => StepOut.fail "Actor mailbox closed" vm

/-- Apply a function to the current (topmost) frame. -/
def updFrame (vm : VMState) (f : Frame → Frame) : VMState :=
  match vm.call_stack with
  | [] => vm
  | fr :: rest => { vm with call_stack := f fr :: rest }

/-- Binary integer arithmetic (`Add`/`Sub`/`Mul`, `vm.rs` lines 280–303):
pop `b` then `a`; both must be `Int`, else `Err("Invalid types for ...")`.
The result wraps to `i64`. -/
def intBin (vm : VMState) (opName : String) (f : Int → Int → Int) : StepOut :=
  match vm.stack with
  | [] => StepOut.fail "Stack underflow" vm
  | b :: rest1 =>
    match rest1 with
    | [] => StepOut.fail "Stack underflow" { vm with stack := [] }
    | a :: rest =>
      match a, b with
      | Value.int a, Value.int b =>
          StepOut.next { vm with stack := Value.int (wrap64 (f a b)) :: rest }
      | _, _ => StepOut.fail ("Invalid types for " ++ opName) { vm with stack := rest }

/-- Binary integer comparison (`Lt`/`Gt`/`Le`/`Ge`, `vm.rs` lines 325–356). -/
def intCmp (vm : VMState) (opName : String) (f : Int → Int → Bool) : StepOut :=
  match vm.stack with
  | [] => StepOut.fail "Stack underflow" vm
  | b :: rest1 =>
    match rest1 with
    | [] => StepOut.fail "Stack underflow" { vm with stack := [] }
    | a :: rest =>
      match a, b with
      | Value.int a, Value.int b =>
          StepOut.next { vm with stack := Value.bool (f a b) :: rest }
      | _, _ => StepOut.fail ("Invalid types for " ++ opName) { vm with stack := rest }

/-- The `for field_name in fields.iter().rev()` loop of `PushStruct`: pop one
value per field name, last name first, into the field map. -/
def popStructFields (stack : List Value) (acc : List (String × Value)) :
    List String → Option (List (String × Value) × List Value)
  | [] => some (acc, stack)
  | name :: restNames =>
    match stack with
    | [] => none
    | v :: restStack => popStructFields restStack (ainsert acc name v) restNames

/-- The argument-popping loop of `Call`/`Spawn`: pop `n` values (top first)
and reverse, so the result lists the arguments in declaration order.
`none` is the stack-underflow case (the stack has been drained). -/
def popArgs (stack : List Value) (n : Nat) : Option (List Value × List Value) :=
  if n ≤ stack.length then some ((stack.take n).reverse, stack.drop n) else none

/-- The parameter binding of `Call`: `params.iter().zip(args)` into a fresh
`HashMap` (`zip` silently truncates to the shorter list — there is no arity
check). -/
def bindParams (params : List String) (args : List Value) : List (String × Value) :=
  (params.zip args).foldl (fun m pv => ainsert m pv.1 pv.2) []

/-- One opcode dispatch of `VM::execute` (`vm.rs` lines 266–510 plus the
`Receive` continuation at lines 513–536).  The current frame at the head of
`call_stack` has already had `current_instr_idx` advanced past the opcode, as
in the source.  Two error messages built with `{:?}` in the source (`Send` to
a non-actor, `LoadField` on a non-object) are modelled without the debug
rendering of the offending value; no claim observes those strings. -/
def execOpcode (vm : VMState) (func : IRFunction) (op : Opcode) : StepOut :=
  match op with
  | Opcode.pushInt v => StepOut.next { vm with stack := Value.int v :: vm.stack }
  | Opcode.pushBool v => StepOut.next { vm with stack := Value.bool v :: vm.stack }
  | Opcode.loadVar name =>
    match vm.call_stack with
    | [] => StepOut.crash
    | frame :: _ =>
      match (alookup frame.locals name).orElse (fun _ => alookup vm.globals name) with
      | some v => StepOut.next { vm with stack := v :: vm.stack }
      | none => StepOut.fail ("Variable " ++ name ++ " not found") vm
  | Opcode.storeVar name =>
    match vm.stack with
    | [] => StepOut.fail "Stack underflow in StoreVar" vm
    | v :: rest =>
        StepOut.next (updFrame { vm with stack := rest }
          (fun fr => { fr with locals := ainsert fr.locals name v }))
  | Opcode.add => intBin vm "Add" (fun a b => a + b)
  | Opcode.sub => intBin vm "Sub" (fun a b => a - b)
  | Opcode.mul => intBin vm "Mul" (fun a b => a * b)
  | Opcode.div =>
    match vm.stack with
    | [] => StepOut.fail "Stack underflow" vm
    | b :: rest1 =>
      match rest1 with
      | [] => StepOut.fail "Stack underflow" { vm with stack := [] }
      | a :: rest =>
        match a, b with
        | Value.int a, Value.int b =>
            if b = 0 then StepOut.fail "Division by zero" { vm with stack := rest }
            else if a = i64min ∧ b = -1 then StepOut.crash
            else StepOut.next { vm with stack := Value.int (Int.tdiv a b) :: rest }
        | _, _ => StepOut.fail "Invalid types for Div" { vm with stack := rest }
  | Opcode.eq =>
    match vm.stack with
    | [] => StepOut.fail "Stack underflow" vm
    | b :: rest1 =>
      match rest1 with
      | [] => StepOut.fail "Stack underflow" { vm with stack := [] }
      | a :: rest => StepOut.next { vm with stack := Value.bool (decide (a = b)) :: rest }
  | Opcode.ne =>
    match vm.stack with
    | [] => StepOut.fail "Stack underflow" vm
    | b :: rest1 =>
      match rest1 with
      | [] => StepOut.fail "Stack underflow" { vm with stack := [] }
      | a :: rest => StepOut.next { vm with stack := Value.bool (decide (a ≠ b)) :: rest }
  | Opcode.lt => intCmp vm "Lt" (fun a b => decide (a < b))
  | Opcode.gt => intCmp vm "Gt" (fun a b => decide (a > b))
  | Opcode.le => intCmp vm "Le" (fun a b => decide (a ≤ b))
  | Opcode.ge => intCmp vm "Ge" (fun a b => decide (a ≥ b))
  | Opcode.pushFloat v => StepOut.next { vm with stack := Value.float v :: vm.stack }
  | Opcode.pushStr s =>
    let (heap', idx) := vm.heap.alloc (HeapObject.str s)
    StepOut.next { vm with heap := heap', stack := Value.object idx :: vm.stack }
  | Opcode.pushStruct name fields =>
    match popStructFields vm.stack [] fields.reverse with
    | none => StepOut.fail "Stack underflow in PushStruct" { vm with stack := [] }
    | some (field_vals, rest) =>
      let (heap', idx) := vm.heap.alloc (HeapObject.struct name field_vals)
      StepOut.next { vm with heap := heap', stack := Value.object idx :: rest }
  | Opcode.loadField name =>
    match vm.stack with
    | [] => StepOut.fail "Stack underflow in LoadField" vm
    | v :: rest =>
      match v with
      | Value.object idx =>
        match vm.heap.get idx with
        | some (HeapObject.struct _ fields) =>
          match alookup fields name with
          | some fval => StepOut.next { vm with stack := fval :: rest }
          | none => StepOut.fail ("Field " ++ name ++ " not found") { vm with stack := rest }
        | _ =>
            StepOut.fail ("Cannot load field " ++ name ++ " from non-struct object")
              { vm with stack := rest }
      | _ =>
          StepOut.fail ("Cannot load field " ++ name ++ " from non-object value")
            { vm with stack := rest }
  | Opcode.spawn actor_name arg_count =>
    match popArgs vm.stack arg_count with
    | none => StepOut.fail "Stack underflow in Spawn" { vm with stack := [] }
    | some (args, rest) =>
      let id := vm.registry.next_id
      let meta : ActorMetadata :=
        { id := id, func_name := actor_name, args := args,
          parent_id := vm.current_actor_id, children := [],
          policy := SupervisionPolicy.oneForOne, status := ActorStatus.running,
          mailbox := [], mailbox_open := true }
      let actors := match vm.current_actor_id with
        | some parent_id =>
            amodify vm.registry.actors parent_id
              (fun m => { m with children := m.children ++ [id] })
        | none => vm.registry.actors
      StepOut.next { vm with
        stack := Value.actor id :: rest,
        registry := { actors := ainsert actors id meta, next_id := id + 1 },
        spawned := vm.spawned ++ [(id, actor_name, args)] }
  | Opcode.send =>
    match vm.stack with
    | [] => StepOut.fail "Stack underflow in Send (msg)" vm
    | msg :: rest1 =>
      match rest1 with
      | [] => StepOut.fail "Stack underflow in Send (target)" { vm with stack := [] }
      | target :: rest =>
        match target with
        | Value.actor id =>
          let actors := match alookup vm.registry.actors id with
            | some meta =>
                if meta.mailbox_open then
                  amodify vm.registry.actors id
                    (fun m => { m with mailbox := m.mailbox ++ [msg] })
                else vm.registry.actors
            | none => vm.registry.actors
          StepOut.next { vm with stack := rest,
                                 registry := { vm.registry with actors := actors } }
        | _ =>
            StepOut.fail "Cannot send to non-actor type" { vm with stack := rest }
  | Opcode.receive =>
    match vm.mailbox with
    | none => StepOut.fail "Receive called outside of an actor" vm
    | some queue =>
      let vm := match vm.current_actor_id with
        | some id => setActorStatus vm id ActorStatus.blockedOnReceive
        | none => vm
      match queue with
      | msg :: restQueue =>
          receiveResume { vm with mailbox := some restQueue } (SelectArm.message (some msg))
      | [] => StepOut.blocked vm
  | Opcode.jmp label =>
    match func.blocks.findIdx? (fun b => b.label = label) with
    | some idx =>
        StepOut.next (updFrame vm
          (fun fr => { fr with current_block_idx := idx, current_instr_idx := 0 }))
    | none => StepOut.fail "Invalid jump" vm
  | Opcode.jmpIfFalse label =>
    match vm.stack with
    | [] => StepOut.next vm
    | cond :: rest =>
      if cond = Value.bool false then
        match func.blocks.findIdx? (fun b => b.label = label) with
        | some idx =>
            StepOut.next (updFrame { vm with stack := rest }
              (fun fr => { fr with current_block_idx := idx, current_instr_idx := 0 }))
        | none => StepOut.fail "Invalid jump" { vm with stack := rest }
      else StepOut.next { vm with stack := rest }
  | Opcode.call name arg_count =>
    match popArgs vm.stack arg_count with
    | none => StepOut.fail "Stack underflow in Call" { vm with stack := [] }
    | some (args, rest) =>
      match alookup vm.functions name with
      | none => StepOut.fail ("Function " ++ name ++ " not found") { vm with stack := rest }
      | some target_func =>
        StepOut.next { vm with
          stack := rest,
          call_stack :=
            { func_name := name, current_block_idx := 0, current_instr_idx := 0,
              locals := bindParams target_func.params args } :: vm.call_stack }
  | Opcode.ret =>
    match vm.call_stack with
    | [] => StepOut.crash
    | _ :: restFrames =>
      if restFrames.isEmpty then
        let vm := { vm with call_stack := restFrames }
        let vm := match vm.current_actor_id with
          | some id => setActorStatus vm id ActorStatus.stopped
          | none => vm
        match vm.stack with
        | v :: rest => StepOut.done v { vm with stack := rest }
        | [] => StepOut.done Value.unit vm
      else StepOut.next { vm with call_stack := restFrames }

/-- The body of one `while` iteration of `VM::execute` (`vm.rs` 225–537),
entered with a non-empty call stack: bump the GC timer and collect at the
pacing threshold, locate the current instruction (block fallthrough and
frame pop on block-list exhaustion, as in the source), advance the
instruction cursor, dispatch.  The sequential model takes the
no-deadlock-signal branch of the loop-top `try_recv`. -/
def vmStep (vm : VMState) : StepOut :=
  let vm := { vm with gc_timer := vm.gc_timer + 1 }
  let gcRes : Option VMState :=
    if vm.gc_timer > 1000 then
      match vm.heap.gc vm.stack vm.call_stack vm.globals with
      | none => none
      | some heap' => some { vm with heap := heap', gc_timer := 0 }
    else some vm
  match gcRes with
  | none => StepOut.crash
  | some vm =>
    match vm.call_stack with
    | [] => StepOut.crash
    | frame :: restFrames =>
      match alookup vm.functions frame.func_name with
      | none => StepOut.fail ("Function " ++ frame.func_name ++ " not found") vm
      | some func =>
        match func.blocks.get? frame.current_block_idx with
        | none => StepOut.crash
        | some block =>
          if frame.current_instr_idx ≥ block.instructions.length then
            if frame.current_block_idx + 1 < func.blocks.length then
              StepOut.next { vm with call_stack :=
                { frame with current_block_idx := frame.current_block_idx + 1,
                             current_instr_idx := 0 } :: restFrames }
            else
              let vm := { vm with call_stack := restFrames }
              if restFrames.isEmpty then
                let vm := match vm.current_actor_id with
                  | some id => setActorStatus vm id ActorStatus.stopped
                  | none => vm
                match vm.stack with
                | v :: rest => StepOut.done v { vm with stack := rest }
                | [] => StepOut.done Value.unit vm
              else StepOut.next vm
          else
            match block.instructions.get? frame.current_instr_idx with
            | none => StepOut.crash
            | some instr =>
              let vm := { vm with call_stack :=
                { frame with current_instr_idx := frame.current_instr_idx + 1 } :: restFrames }
              execOpcode vm func instr.opcode

/-- The `while !self.call_stack.is_empty()` loop of `VM::execute`; an empty
call stack exits the loop and returns `Ok(Value::Unit)`. -/
def vmRun : Nat → VMState → StepOut
  | 0, vm => StepOut.fuelOut vm
  | fuel + 1, vm =>
    if vm.call_stack.isEmpty then StepOut.done Value.unit vm
    else
      match vmStep vm with
      | StepOut.next vm' => vmRun fuel vm'
      | out => out

/-- Source: `VM::new` (the function table is installed by `load_program`). -/
def VMState.new (functions : List (String × IRFunction)) : VMState :=
  { stack := [], call_stack := [], functions := functions, globals := [],
    heap := Heap.new, registry := { actors := [], next_id := 1 },
    current_actor_id := none, gc_timer := 0, mailbox := none, spawned := [] }

/-- The entry-frame push of `VM::execute` (lines 185–190): the entry frame's
locals start empty — `VM::execute` takes no argument values. -/
def VMState.pushEntryFrame (vm : VMState) (func_name : String) : VMState :=
  { vm with call_stack :=
      { func_name := func_name, current_block_idx := 0, current_instr_idx := 0,
        locals := [] } :: vm.call_stack }

/-- Source: `VM::execute(func_name, mailbox)` in the sequential model. -/
def vmExecute (functions : List (String × IRFunction)) (func_name : String)
    (fuel : Nat) : StepOut :=
  vmRun fuel ((VMState.new functions).pushEntryFrame func_name)

/-- The deadlock-sentinel condition (`vm.rs` lines 200–216): on a registry
snapshot, the signal is broadcast when there is at least one actor, none is
`Running`, and at least one is `BlockedOnReceive`. -/
def sentinelFires (reg : ActorRegistry) : Bool :=
  let total_actors := reg.actors.length
  if total_actors = 0 then false
  else
    let blocked_actors :=
      reg.actors.countP (fun a => a.2.status = ActorStatus.blockedOnReceive)
    let active_actors :=
      reg.actors.countP (fun a => a.2.status = ActorStatus.running)
    active_actors = 0 && blocked_actors > 0

/-! ### Optimizations (`optimizations.rs`) -/

/-- Source: `enum SpecializedOpcode`. -/
inductive SpecializedOpcode where
  | generic : Opcode → SpecializedOpcode
  | intAdd | intSub | intMul | intDiv : SpecializedOpcode
  | intLt | intGt | intLe | intGe | intEq | intNe : SpecializedOpcode
  | loadLocalFast : Nat → SpecializedOpcode
  | storeLocalFast : Nat → SpecializedOpcode
  | tailCall : String → Nat → SpecializedOpcode
  | pushSmallInt : Int → SpecializedOpcode
deriving DecidableEq, Repr

/-- Source: `struct SpecializedInstruction`. -/
structure SpecializedInstruction where
  opcode : SpecializedOpcode
deriving DecidableEq, Repr

/-- Source: `struct SpecializedBlock`. -/
structure SpecializedBlock where
  label : String
  instructions : List SpecializedInstruction
deriving DecidableEq, Repr

/-- Source: `struct SpecializedFunction`. -/
structure SpecializedFunction where
  name : String
  params : List String
  param_slots : List (String × Nat)
  blocks : List SpecializedBlock
  is_hot : Bool
  call_count : Nat
deriving DecidableEq, Repr

/-- Source: `struct InlineCache`: call-site, field and variable-slot caches.  The
function cache stores the resolved callee's name in place of the `Arc`
pointer. -/
structure InlineCache where
  function_cache : List (Nat × String)
  field_cache : List ((String × String) × Nat)
  slot_cache : List (String × Nat)
deriving DecidableEq, Repr

/-- Source: `InlineCache::new`. -/
def InlineCache.new : InlineCache := ⟨[], [], []⟩

/-- Source: `InlineCache::cache_slot`. -/
def InlineCache.cache_slot (c : InlineCache) (var_name : String) (slot : Nat) : InlineCache :=
  { c with slot_cache := ainsert c.slot_cache var_name slot }

/-- Source: `InlineCache::get_cached_slot`. -/
def InlineCache.get_cached_slot (c : InlineCache) (var_name : String) : Option Nat :=
  alookup c.slot_cache var_name

/-- Source: `HOT_THRESHOLD`. -/
def HOT_THRESHOLD : Nat := 100

/-- Source: `struct HotPathTracker`: per-function `u64` call counters and the list of
hot names. -/
structure HotPathTracker where
  call_counts : List (String × Nat)
  hot_functions : List String
deriving DecidableEq, Repr

/-- Source: `HotPathTracker::new`. -/
def HotPathTracker.new : HotPathTracker := ⟨[], []⟩

/-- Source: `HotPathTracker::record_call`: bump the counter (with `u64` wrap-around)
and return `true` exactly when the new count equals `HOT_THRESHOLD` and the
name is not already hot, pushing it onto the hot list. -/
def HotPathTracker.record_call (t : HotPathTracker) (func_name : String) :
    HotPathTracker × Bool :=
  let count := ((alookup t.call_counts func_name).getD 0 + 1) % 2 ^ 64
  let call_counts := ainsert t.call_counts func_name count
  if count = HOT_THRESHOLD ∧ ¬ func_name ∈ t.hot_functions then
    ({ call_counts := call_counts, hot_functions := t.hot_functions ++ [func_name] }, true)
  else
    ({ t with call_counts := call_counts }, false)

/-- Source: `HotPathTracker::is_hot`. -/
def HotPathTracker.is_hot (t : HotPathTracker) (func_name : String) : Bool :=
  func_name ∈ t.hot_functions

/-- Source: `HotPathTracker::get_call_count`. -/
def HotPathTracker.get_call_count (t : HotPathTracker) (func_name : String) : Nat :=
  (alookup t.call_counts func_name).getD 0

/-- Source: `n` successive `record_call`s of the same function. -/
def iterCalls (t : HotPathTracker) (func_name : String) : Nat → HotPathTracker
  | 0 => t
  | n + 1 => ((iterCalls t func_name n).record_call func_name).1

/-- How many calls of a sequence of `record_call` invocations on `name`
return `true`. -/
def numTrues (t : HotPathTracker) (calls : List String) (name : String) : Nat :=
  match calls with
  | [] => 0
  | c :: rest =>
    let r := t.record_call c
    numTrues r.1 rest name + (if r.2 = true ∧ c = name then 1 else 0)

/-- Source: `is_tail_call`: the instruction at `instr_idx` is a `Call` immediately
followed by a `Ret` in the same block. -/
def is_tail_call (block : IRBlock) (instr_idx : Nat) : Bool :=
  match block.instructions.get? instr_idx with
  | some ⟨Opcode.call _ _⟩ =>
    match block.instructions.get? (instr_idx + 1) with
    | some ⟨Opcode.ret⟩ => true
    | _ => false
  | _ => false

/-- Source: `struct BytecodeOptimizer`. -/
structure BytecodeOptimizer where
  inline_cache : InlineCache
  call_site_counter : Nat
deriving DecidableEq, Repr

/-- Source: `BytecodeOptimizer::new`. -/
def BytecodeOptimizer.new : BytecodeOptimizer := ⟨InlineCache.new, 0⟩

/-- Source: `BytecodeOptimizer::specialize_instruction`.  Arithmetic and comparisons
are specialized unconditionally; `LoadVar` uses the parameter slots or the
(persistent) slot cache; `StoreVar` assigns the next free slot
(`slot_cache.len()`) to a new name; small `PushInt`s are inlined; a `Call`
followed by `Ret` in the same block becomes a `TailCall`. -/
def specialize_instruction (opt : BytecodeOptimizer) (opcode : Opcode)
    (block : IRBlock) (idx : Nat) (param_slots : List (String × Nat)) :
    BytecodeOptimizer × SpecializedOpcode :=
  match opcode with
  | Opcode.add => (opt, SpecializedOpcode.intAdd)
  | Opcode.sub => (opt, SpecializedOpcode.intSub)
  | Opcode.mul => (opt, SpecializedOpcode.intMul)
  | Opcode.div => (opt, SpecializedOpcode.intDiv)
  | Opcode.lt => (opt, SpecializedOpcode.intLt)
  | Opcode.gt => (opt, SpecializedOpcode.intGt)
  | Opcode.le => (opt, SpecializedOpcode.intLe)
  | Opcode.ge => (opt, SpecializedOpcode.intGe)
  | Opcode.eq => (opt, SpecializedOpcode.intEq)
  | Opcode.ne => (opt, SpecializedOpcode.intNe)
  | Opcode.loadVar name =>
    match alookup param_slots name with
    | some slot => (opt, SpecializedOpcode.loadLocalFast slot)
    | none =>
      match opt.inline_cache.get_cached_slot name with
      | some slot => (opt, SpecializedOpcode.loadLocalFast slot)
      | none => (opt, SpecializedOpcode.generic opcode)
  | Opcode.storeVar name =>
    let next_slot := opt.inline_cache.slot_cache.length
    match alookup opt.inline_cache.slot_cache name with
    | some slot => (opt, SpecializedOpcode.storeLocalFast slot)
    | none =>
      ({ opt with inline_cache := opt.inline_cache.cache_slot name next_slot },
       SpecializedOpcode.storeLocalFast next_slot)
  | Opcode.pushInt v =>
    if -128 ≤ v ∧ v ≤ 127 then (opt, SpecializedOpcode.pushSmallInt v)
    else (opt, SpecializedOpcode.generic opcode)
  | Opcode.call name arg_count =>
    if is_tail_call block idx then (opt, SpecializedOpcode.tailCall name arg_count)
    else ({ opt with call_site_counter := opt.call_site_counter + 1 },
          SpecializedOpcode.generic opcode)
  | _ => (opt, SpecializedOpcode.generic opcode)

/-- The instruction loop of `BytecodeOptimizer::optimize_block`. -/
def optimize_instrs (opt : BytecodeOptimizer) (block : IRBlock)
    (param_slots : List (String × Nat)) :
    Nat → List IRInstruction → BytecodeOptimizer × List SpecializedInstruction
  | _, [] => (opt, [])
  | idx, instr :: rest =>
    let (opt, specialized) := specialize_instruction opt instr.opcode block idx param_slots
    let (opt, restSpec) := optimize_instrs opt block param_slots (idx + 1) rest
    (opt, ⟨specialized⟩ :: restSpec)

/-- Source: `BytecodeOptimizer::optimize_block`. -/
def optimize_block (opt : BytecodeOptimizer) (block : IRBlock)
    (param_slots : List (String × Nat)) : BytecodeOptimizer × SpecializedBlock :=
  let (opt, instructions) := optimize_instrs opt block param_slots 0 block.instructions
  (opt, { label := block.label, instructions := instructions })

/-- The block loop of `BytecodeOptimizer::optimize`. -/
def optimize_blocks (opt : BytecodeOptimizer) (param_slots : List (String × Nat)) :
    List IRBlock → BytecodeOptimizer × List SpecializedBlock
  | [] => (opt, [])
  | block :: rest =>
    let (opt, sb) := optimize_block opt block param_slots
    let (opt, rest') := optimize_blocks opt param_slots rest
    (opt, sb :: rest')

/-- The parameter-slot loop of `BytecodeOptimizer::optimize`: parameter `i`
gets slot `i`, both in `param_slots` and in the (persistent) slot cache. -/
def assignParamSlots (opt : BytecodeOptimizer) (param_slots : List (String × Nat)) :
    Nat → List String → BytecodeOptimizer × List (String × Nat)
  | _, [] => (opt, param_slots)
  | idx, param :: rest =>
    let param_slots := ainsert param_slots param idx
    let opt := { opt with inline_cache := opt.inline_cache.cache_slot param idx }
    assignParamSlots opt param_slots (idx + 1) rest

/-- Source: `BytecodeOptimizer::optimize`.  Note that the inline cache (in particular
the slot cache consulted by `LoadVar`/`StoreVar` rewriting) is carried over
from one `optimize` call to the next — it is never reset per function. -/
def BytecodeOptimizer.optimize (opt : BytecodeOptimizer) (func : IRFunction) :
    BytecodeOptimizer × SpecializedFunction :=
  let (opt, param_slots) := assignParamSlots opt [] 0 func.params
  let (opt, blocks) := optimize_blocks opt param_slots func.blocks
  (opt,
   { name := func.name, params := func.params, param_slots := param_slots,
     blocks := blocks, is_hot := false, call_count := 0 })

/-- Source: `struct FastLocals`: slot-indexed local storage. -/
structure FastLocals where
  slots : List Value
deriving DecidableEq, Repr

/-- Source: `FastLocals::new`. -/
def FastLocals.new (capacity : Nat) : FastLocals :=
  ⟨List.replicate (max capacity 16) Value.unit⟩

/-- Source: `FastLocals::get` returns `&self.slots[slot]`; `none` models the Rust
panic on an out-of-bounds slot. -/
def FastLocals.get (l : FastLocals) (slot : Nat) : Option Value :=
  l.slots.get? slot

/-- Source: `FastLocals::set`: grow with `Unit` up to `slot + 1` if needed, then
write. -/
def FastLocals.set (l : FastLocals) (slot : Nat) (value : Value) : FastLocals :=
  let slots :=
    if l.slots.length ≤ slot then
      l.slots ++ List.replicate (slot + 1 - l.slots.length) Value.unit
    else l.slots
  ⟨slots.set slot value⟩

/-- Source: `struct OptimizedContext`. -/
structure OptimizedContext where
  stack : List Value
  locals : FastLocals
  hot_tracker : HotPathTracker
  inline_cache : InlineCache
deriving DecidableEq, Repr

/-- Source: `OptimizedContext::new`. -/
def OptimizedContext.new : OptimizedContext :=
  { stack := [], locals := FastLocals.new 32,
    hot_tracker := HotPathTracker.new, inline_cache := InlineCache.new }

/-- Result of `OptimizedContext::execute_specialized`: `Ok(())` with the new
context, an `Err` string, or a Rust panic (`FastLocals::get` out of
bounds). -/
inductive SpecOut where
  | ok (ctx : OptimizedContext)
  | err (msg : String)
  | crash
deriving Repr

/-- Binary specialized integer operation: pop `b` then `a`; both must be
`Int` (`Err("Type error in ...")` otherwise). -/
def specIntBin (ctx : OptimizedContext) (opName : String) (f : Int → Int → Value) : SpecOut :=
  match ctx.stack with
  | [] => SpecOut.err "Stack underflow"
  | b :: rest1 =>
    match rest1 with
    | [] => SpecOut.err "Stack underflow"
    | a :: rest =>
      match a, b with
      | Value.int a, Value.int b => SpecOut.ok { ctx with stack := f a b :: rest }
      | _, _ => SpecOut.err ("Type error in " ++ opName)

/-- Source: `OptimizedContext::execute_specialized` (`optimizations.rs` 365–507).
`TailCall` and `Generic` are no-ops here — they are handled in the VM loop. -/
def execute_specialized (ctx : OptimizedContext) (opcode : SpecializedOpcode) : SpecOut :=
  match opcode with
  | SpecializedOpcode.intAdd => specIntBin ctx "IntAdd" (fun a b => Value.int (wrap64 (a + b)))
  | SpecializedOpcode.intSub => specIntBin ctx "IntSub" (fun a b => Value.int (wrap64 (a - b)))
  | SpecializedOpcode.intMul => specIntBin ctx "IntMul" (fun a b => Value.int (wrap64 (a * b)))
  | SpecializedOpcode.intDiv =>
    match ctx.stack with
    | [] => SpecOut.err "Stack underflow"
    | b :: rest1 =>
      match rest1 with
      | [] => SpecOut.err "Stack underflow"
      | a :: rest =>
        match a, b with
        | Value.int a, Value.int b =>
          if b = 0 then SpecOut.err "Division by zero"
          else if a = i64min ∧ b = -1 then SpecOut.crash
          else SpecOut.ok { ctx with stack := Value.int (Int.tdiv a b) :: rest }
        | _, _ => SpecOut.err "Type error in IntDiv"
  | SpecializedOpcode.intLt => specIntBin ctx "IntLt" (fun a b => Value.bool (decide (a < b)))
  | SpecializedOpcode.intGt => specIntBin ctx "IntGt" (fun a b => Value.bool (decide (a > b)))
  | SpecializedOpcode.intLe => specIntBin ctx "IntLe" (fun a b => Value.bool (decide (a ≤ b)))
  | SpecializedOpcode.intGe => specIntBin ctx "IntGe" (fun a b => Value.bool (decide (a ≥ b)))
  | SpecializedOpcode.intEq => specIntBin ctx "IntEq" (fun a b => Value.bool (decide (a = b)))
  | SpecializedOpcode.intNe => specIntBin ctx "IntNe" (fun a b => Value.bool (decide (a ≠ b)))
  | SpecializedOpcode.loadLocalFast slot =>
    match ctx.locals.get slot with
    | none => SpecOut.crash
    | some value => SpecOut.ok { ctx with stack := value :: ctx.stack }
  | SpecializedOpcode.storeLocalFast slot =>
    match ctx.stack with
    | [] => SpecOut.err "Stack underflow"
    | value :: rest =>
        SpecOut.ok { ctx with stack := rest, locals := ctx.locals.set slot value }
  | SpecializedOpcode.pushSmallInt v => SpecOut.ok { ctx with stack := Value.int v :: ctx.stack }
  | SpecializedOpcode.tailCall _ _ => SpecOut.ok ctx
  | SpecializedOpcode.generic _ => SpecOut.ok ctx

/-- Source: `struct OptimizedVM`. -/
structure OptimizedVM where
  context : OptimizedContext
  functions : List (String × SpecializedFunction)
  optimizer : BytecodeOptimizer
deriving DecidableEq, Repr

/-- Source: `OptimizedVM::new`. -/
def OptimizedVM.new : OptimizedVM :=
  { context := OptimizedContext.new, functions := [],
    optimizer := BytecodeOptimizer.new }

/-- Source: `OptimizedVM::load_program`: run the (single, shared) optimizer over each
function and store the results. -/
def OptimizedVM.load_program (vm : OptimizedVM) (ir_functions : List IRFunction) : OptimizedVM :=
  match ir_functions with
  | [] => vm
  | func :: rest =>
    let (opt, specialized) := vm.optimizer.optimize func
    OptimizedVM.load_program
      { vm with optimizer := opt,
                functions := ainsert vm.functions func.name specialized } rest

/-- Result of `OptimizedVM::execute_function`. -/
inductive ExecOut where
  | ok (v : Value)
  | err (msg : String)
  | crash
  | fuelOut
deriving DecidableEq, Repr

/-- The argument-seeding loop of `OptimizedVM::execute` and of the `Call` /
`TailCall` dispatch: `locals.set(idx, arg)` for each argument in order. -/
def setArgsFrom (l : FastLocals) (idx : Nat) : List Value → FastLocals
  | [] => l
  | arg :: rest => setArgsFrom (l.set idx arg) (idx + 1) rest

mutual

/-- Source: `OptimizedVM::execute_function` (`optimizations.rs` 545–691): record the
call (marking the function hot at the threshold), then run the block/
instruction loop.  `fuel` bounds the recursion (calls and loop iterations);
running out of fuel is a model artifact. -/
def execute_function : Nat → OptimizedVM → String → OptimizedVM × ExecOut
  | 0, vm, _ => (vm, ExecOut.fuelOut)
  | fuel + 1, vm, func_name =>
    let (tracker, became_hot) := vm.context.hot_tracker.record_call func_name
    let vm := { vm with context := { vm.context with hot_tracker := tracker } }
    let vm :=
      if became_hot then
        { vm with functions :=
            amodify vm.functions func_name (fun f => { f with is_hot := true }) }
      else vm
    match alookup vm.functions func_name with
    | none => (vm, ExecOut.err ("Function " ++ func_name ++ " not found"))
    | some func => exec_loop fuel vm func_name func 0 0

/-- The `loop` of `OptimizedVM::execute_function`, with explicit
`block_idx` / `instr_idx` cursors. -/
def exec_loop : Nat → OptimizedVM → String → SpecializedFunction → Nat → Nat →
    OptimizedVM × ExecOut
  | 0, vm, _, _, _, _ => (vm, ExecOut.fuelOut)
  | fuel + 1, vm, func_name, func, block_idx, instr_idx =>
    match func.blocks.get? block_idx with
    | none =>
      -- `if block_idx >= func.blocks.len() { break }` → `Ok(pop ∨ Unit)`
      match vm.context.stack with
      | v :: rest => ({ vm with context := { vm.context with stack := rest } }, ExecOut.ok v)
      | [] => (vm, ExecOut.ok Value.unit)
    | some block =>
      match block.instructions.get? instr_idx with
      | none => exec_loop fuel vm func_name func (block_idx + 1) 0
      | some instr =>
        let instr_idx := instr_idx + 1
        match instr.opcode with
        | SpecializedOpcode.tailCall callee_name arg_count =>
          match popArgs vm.context.stack arg_count with
          | none => (vm, ExecOut.err "Stack underflow in TailCall")
          | some (args, rest) =>
            let locals := setArgsFrom (FastLocals.new args.length) 0 args
            let vm := { vm with context :=
              { vm.context with stack := rest, locals := locals } }
            if callee_name = func_name then
              exec_loop fuel vm func_name func 0 0
            else
              execute_function fuel vm callee_name
        | SpecializedOpcode.generic opcode =>
          match opcode with
          | Opcode.pushInt v =>
            exec_loop fuel
              { vm with context := { vm.context with stack := Value.int v :: vm.context.stack } }
              func_name func block_idx instr_idx
          | Opcode.pushBool v =>
            exec_loop fuel
              { vm with context := { vm.context with stack := Value.bool v :: vm.context.stack } }
              func_name func block_idx instr_idx
          | Opcode.loadVar name =>
            match alookup func.param_slots name with
            | some slot =>
              match vm.context.locals.get slot with
              | none => (vm, ExecOut.crash)
              | some value =>
                exec_loop fuel
                  { vm with context := { vm.context with stack := value :: vm.context.stack } }
                  func_name func block_idx instr_idx
            | none =>
              match vm.context.inline_cache.get_cached_slot name with
              | some slot =>
                match vm.context.locals.get slot with
                | none => (vm, ExecOut.crash)
                | some value =>
                  exec_loop fuel
                    { vm with context := { vm.context with stack := value :: vm.context.stack } }
                    func_name func block_idx instr_idx
              | none => (vm, ExecOut.err ("Variable " ++ name ++ " not found"))
          | Opcode.call callee_name arg_count =>
            match popArgs vm.context.stack arg_count with
            | none => (vm, ExecOut.err "Stack underflow in Call")
            | some (args, rest) =>
              let saved_locals := vm.context.locals
              let locals := setArgsFrom (FastLocals.new args.length) 0 args
              let vm := { vm with context :=
                { vm.context with stack := rest, locals := locals } }
              match execute_function fuel vm callee_name with
              | (vm, ExecOut.ok result) =>
                let vm := { vm with context :=
                  { vm.context with locals := saved_locals,
                                    stack := result :: vm.context.stack } }
                exec_loop fuel vm func_name func block_idx instr_idx
              | (vm, out) => (vm, out)
          | Opcode.ret =>
            match vm.context.stack with
            | result :: rest =>
              ({ vm with context := { vm.context with stack := rest } }, ExecOut.ok result)
            | [] => (vm, ExecOut.ok Value.unit)
          | Opcode.jmp label =>
            match func.blocks.findIdx? (fun b => b.label = label) with
            | some idx => exec_loop fuel vm func_name func idx 0
            | none => (vm, ExecOut.err ("Label " ++ label ++ " not found"))
          | Opcode.jmpIfFalse label =>
            match vm.context.stack with
            | [] => (vm, ExecOut.err "Stack underflow in JmpIfFalse")
            | cond :: rest =>
              let vm := { vm with context := { vm.context with stack := rest } }
              if cond = Value.bool false then
                match func.blocks.findIdx? (fun b => b.label = label) with
                | some idx => exec_loop fuel vm func_name func idx 0
                | none => (vm, ExecOut.err ("Label " ++ label ++ " not found"))
              else exec_loop fuel vm func_name func block_idx instr_idx
          | _ =>
            -- other generic opcodes: no effect in `OptimizedVM`
            exec_loop fuel vm func_name func block_idx instr_idx
        | other =>
          match execute_specialized vm.context other with
          | SpecOut.ok ctx => exec_loop fuel { vm with context := ctx } func_name func block_idx instr_idx
          | SpecOut.err msg => (vm, ExecOut.err msg)
          | SpecOut.crash => (vm, ExecOut.crash)

end

/-- Source: `OptimizedVM::execute`: seed `locals[0..N] = args`, then run the entry
function. -/
def OptimizedVM.execute (vm : OptimizedVM) (fuel : Nat) (func_name : String)
    (args : List Value) : OptimizedVM × ExecOut :=
  let vm := { vm with context :=
    { vm.context with locals := setArgsFrom vm.context.locals 0 args } }
  execute_function fuel vm func_name

/-- The `Err` value of a `StepOut`, if any. -/
def StepOut.errMsg? : StepOut → Option String
  | StepOut.fail msg _ => some msg
  | _ => none

/-- The `Ok` value of a `StepOut`, if any. -/
def StepOut.retVal? : StepOut → Option Value
  | StepOut.done v _ => some v
  | _ => none

/-! ### Native code generator (`jit.rs`)

`JITCompiler::compile` lowers a `SpecializedFunction` to Cranelift IR: one
Cranelift block per source block, 128 `i64` variables for the local slots,
parameters bound to slots `0..k` in the block labelled `"entry"`, and a
*compile-time* value stack per block (reset to empty at each block start);
the emitted SSA values realize that stack at run time.  The model below
executes a function exactly as the emitted code would:

  * values are `i64` (wrapped integers); comparisons produce `0`/`1` via
    `select`; `sdiv` traps on a zero divisor and on `i64::MIN / -1`;
  * `Jmp`, `JmpIfFalse` and `Ret` terminate a block — instructions after
    them in the same source block are never emitted (`terminated` flag);
    `brif(cond, next, target)` goes to the *next source block* when `cond`
    is non-zero and to `target` when it is zero;
  * a block ending without terminator jumps to the next block in source
    order, or returns `0` if it is the last;
  * `Ret` on an empty (compile-time) stack returns `iconst 0`;
  * the paths where `compile` returns `Err(...)` (unsupported opcode,
    unknown label, missing entry block, compile-time stack underflow,
    missing fallthrough) are `compileErr` outcomes, and a compile-time
    panic (slot ≥ 128) is `crash`.

Execution starts at the first block, whose label the source requires to be
`"entry"` (the block that receives the function parameters); Cranelift's
verifier rejects layouts whose first block is not the parameter block.
Variables never defined on a path read as `0`. -/

/-- Outcome of calling a JIT-compiled function. -/
inductive JitOut where
  | ret (v : Int)
  | trap
  | compileErr (msg : String)
  | crash
  | fuelOut
deriving DecidableEq, Repr

/-- The entry binding `builder.def_var(vars[&idx], val)` of the incoming
parameters, and the argument layout of a native call. -/
def setIntsFrom (l : List Int) (idx : Nat) : List Int → List Int
  | [] => l
  | v :: rest => setIntsFrom (l.set idx v) (idx + 1) rest

/-- Run the emitted code: execute the remaining instructions of the current
block over the variable pool `vars` (128 `i64` variables) and the block's
value stack (the compile-time stack of `JITCompiler::compile`, realized at
run time by the emitted SSA values; it starts empty at every block entry).
An empty instruction list without a prior terminator falls through to the
next block in source order, or returns `0` from the last block.  One unit of
fuel is spent per instruction and per block transfer; running out of fuel is
a model artifact. -/
def jitExec (f : SpecializedFunction) :
    Nat → List Int → Nat → List SpecializedInstruction → List Int → JitOut
  | 0, _, _, _, _ => JitOut.fuelOut
  | fuel + 1, vars, block_idx, instrs, stack =>
    match instrs with
    | [] =>
      -- `!terminated`: fall through to the next block, or `return 0`
      match f.blocks.get? (block_idx + 1) with
      | some block => jitExec f fuel vars (block_idx + 1) block.instructions []
      | none => JitOut.ret 0
    | instr :: rest =>
      match instr.opcode with
      | SpecializedOpcode.pushSmallInt v => jitExec f fuel vars block_idx rest (wrap64 v :: stack)
      | SpecializedOpcode.generic (Opcode.pushInt v) =>
          jitExec f fuel vars block_idx rest (wrap64 v :: stack)
      | SpecializedOpcode.loadLocalFast idx =>
        if idx < 128 then jitExec f fuel vars block_idx rest (vars.getD idx 0 :: stack)
        else JitOut.crash
      | SpecializedOpcode.storeLocalFast idx =>
        match stack with
        | [] => JitOut.compileErr "Stack underflow"
        | v :: stack =>
          if idx < 128 then jitExec f fuel (vars.set idx v) block_idx rest stack
          else JitOut.crash
      | SpecializedOpcode.intAdd =>
        match stack with
        | b :: a :: stack => jitExec f fuel vars block_idx rest (wrap64 (a + b) :: stack)
        | _ => JitOut.compileErr "Stack underflow"
      | SpecializedOpcode.intSub =>
        match stack with
        | b :: a :: stack => jitExec f fuel vars block_idx rest (wrap64 (a - b) :: stack)
        | _ => JitOut.compileErr "Stack underflow"
      | SpecializedOpcode.intMul =>
        match stack with
        | b :: a :: stack => jitExec f fuel vars block_idx rest (wrap64 (a * b) :: stack)
        | _ => JitOut.compileErr "Stack underflow"
      | SpecializedOpcode.intDiv =>
        match stack with
        | b :: a :: stack =>
          if b = 0 then JitOut.trap
          else if a = i64min ∧ b = -1 then JitOut.trap
          else jitExec f fuel vars block_idx rest (Int.tdiv a b :: stack)
        | _ => JitOut.compileErr "Stack underflow"
      | SpecializedOpcode.intLt =>
        match stack with
        | b :: a :: stack =>
            jitExec f fuel vars block_idx rest ((if a < b then 1 else 0) :: stack)
        | _ => JitOut.compileErr "Stack underflow"
      | SpecializedOpcode.intLe =>
        match stack with
        | b :: a :: stack =>
            jitExec f fuel vars block_idx rest ((if a ≤ b then 1 else 0) :: stack)
        | _ => JitOut.compileErr "Stack underflow"
      | SpecializedOpcode.intGt =>
        match stack with
        | b :: a :: stack =>
            jitExec f fuel vars block_idx rest ((if a > b then 1 else 0) :: stack)
        | _ => JitOut.compileErr "Stack underflow"
      | SpecializedOpcode.intGe =>
        match stack with
        | b :: a :: stack =>
            jitExec f fuel vars block_idx rest ((if a ≥ b then 1 else 0) :: stack)
        | _ => JitOut.compileErr "Stack underflow"
      | SpecializedOpcode.intEq =>
        match stack with
        | b :: a :: stack =>
            jitExec f fuel vars block_idx rest ((if a = b then 1 else 0) :: stack)
        | _ => JitOut.compileErr "Stack underflow"
      | SpecializedOpcode.intNe =>
        match stack with
        | b :: a :: stack =>
            jitExec f fuel vars block_idx rest ((if a = b then 0 else 1) :: stack)
        | _ => JitOut.compileErr "Stack underflow"
      | SpecializedOpcode.generic (Opcode.jmp label) =>
        match f.blocks.findIdx? (fun b => b.label = label) with
        | some target =>
          match f.blocks.get? target with
          | some block => jitExec f fuel vars target block.instructions []
          | none => JitOut.ret 0
        | none => JitOut.compileErr ("Unknown label " ++ label)
      | SpecializedOpcode.generic (Opcode.jmpIfFalse label) =>
        match stack with
        | [] => JitOut.compileErr "Stack underflow"
        | cond :: _ =>
          match f.blocks.findIdx? (fun b => b.label = label) with
          | none => JitOut.compileErr ("Unknown label " ++ label)
          | some target =>
            match f.blocks.get? (block_idx + 1) with
            | none => JitOut.compileErr "JmpIfFalse must have fallthrough"
            | some next_block =>
              -- brif: non-zero → fallthrough block, zero → the false target
              if cond ≠ 0 then
                jitExec f fuel vars (block_idx + 1) next_block.instructions []
              else
                match f.blocks.get? target with
                | some block => jitExec f fuel vars target block.instructions []
                | none => JitOut.ret 0
      | SpecializedOpcode.generic Opcode.ret =>
        match stack with
        | v :: _ => JitOut.ret v
        | [] => JitOut.ret 0
      | other => JitOut.compileErr ("JIT does not support opcode " ++ toString (repr other))

/-- Call the JIT-compiled version of `f` on `i64` arguments: the signature
takes one `i64` per parameter and returns one `i64`; parameters are bound to
variables `0..k−1` in the `"entry"` block.  The model requires the `"entry"`
block to be first (as every function produced by the IR generator has);
`compile` itself errs when no `"entry"` block exists. -/
def jitCall (f : SpecializedFunction) (fuel : Nat) (args : List Int) : JitOut :=
  if (f.blocks.map (fun b => b.label)).head? ≠ some "entry" then
    JitOut.compileErr "No entry block found"
  else
    let vars := setIntsFrom (List.replicate 128 0) 0 (args.map wrap64)
    match f.blocks.get? 0 with
    | some block => jitExec f fuel vars 0 block.instructions []
    | none => JitOut.compileErr "No entry block found"

/-! ### Concrete programs used by the claims -/

/-- Scenario 1 of the spec: `add(a, b)` with body
`LoadVar a; LoadVar b; Add; Ret`. -/
def addIR : IRFunction :=
  { name := "add", params := ["a", "b"],
    blocks := [⟨"entry", [⟨Opcode.loadVar "a"⟩, ⟨Opcode.loadVar "b"⟩,
                          ⟨Opcode.add⟩, ⟨Opcode.ret⟩]⟩] }

/-- A `main` that calls `add` with one argument instead of two. -/
def arityMainIR : IRFunction :=
  { name := "main", params := [],
    blocks := [⟨"entry", [⟨Opcode.pushInt 1⟩, ⟨Opcode.call "add" 1⟩, ⟨Opcode.ret⟩]⟩] }

/-- A `main` that computes `1/0`. -/
def divZeroIR : IRFunction :=
  { name := "main", params := [],
    blocks := [⟨"entry", [⟨Opcode.pushInt 1⟩, ⟨Opcode.pushInt 0⟩,
                          ⟨Opcode.div⟩, ⟨Opcode.ret⟩]⟩] }

/-- Source: `f(a)`: a conditional branch that is *not* the last instruction of its
block (`entry: LoadVar a; JmpIfFalse end; PushInt 5; Ret`,
`mid: PushInt 7; Ret`, `end: PushInt 9; Ret`).  Every opcode of its
specialization is JIT-compilable. -/
def branchIR : IRFunction :=
  { name := "f", params := ["a"],
    blocks := [⟨"entry", [⟨Opcode.loadVar "a"⟩, ⟨Opcode.jmpIfFalse "end"⟩,
                          ⟨Opcode.pushInt 5⟩, ⟨Opcode.ret⟩]⟩,
               ⟨"mid", [⟨Opcode.pushInt 7⟩, ⟨Opcode.ret⟩]⟩,
               ⟨"end", [⟨Opcode.pushInt 9⟩, ⟨Opcode.ret⟩]⟩] }

/-- Source: `g()`: computes `1/0` with specialized opcodes (JIT-compilable). -/
def divIR : IRFunction :=
  { name := "g", params := [],
    blocks := [⟨"entry", [⟨Opcode.pushInt 1⟩, ⟨Opcode.pushInt 0⟩,
                          ⟨Opcode.div⟩, ⟨Opcode.ret⟩]⟩] }

/-- Source: `f()`: loads `x` before storing it
(`entry: LoadVar x; StoreVar x; Ret`). -/
def loadBeforeStoreIR : IRFunction :=
  { name := "f", params := [],
    blocks := [⟨"entry", [⟨Opcode.loadVar "x"⟩, ⟨Opcode.storeVar "x"⟩,
                          ⟨Opcode.ret⟩]⟩] }

/-- The specialization of `branchIR` exactly as `OptimizedVM::load_program`
on `[branchIR, divIR]` produces it (first function, fresh optimizer). -/
def branchSpec : SpecializedFunction := (BytecodeOptimizer.new.optimize branchIR).2

/-- The specialization of `divIR` as produced after `branchIR` by the same
optimizer. -/
def divSpec : SpecializedFunction :=
  ((BytecodeOptimizer.new.optimize branchIR).1.optimize divIR).2

/-- A small concrete heap: a struct at index 0 whose field points at index 1,
and an unreferenced string at index 2. -/
def witnessHeap : Heap :=
  { objects := [some (HeapObject.struct "P" [("x", Value.object 1)]),
                some (HeapObject.str "s"), some (HeapObject.str "t")],
    marked := [false, false, false],
    free_list := [] }


/-! ## Theorems

Supporting lemmas first, then one theorem per claim (with witnesses and
counterexamples where required). -/
/-! Step equations for `markWork`. -/

theorem markWork_nil (h : Heap) : markWork h [] = some h := by
  simp [markWork]

theorem markWork_oob {h : Heap} {idx : Nat} {rest : List Value}
    (hm : h.marked.get? idx = none) :
    markWork h (Value.object idx :: rest) = none := by
  simp only [markWork]
  split
  · rfl
  · next heq => rw [hm] at heq; cases heq
  · next heq => rw [hm] at heq; cases heq

theorem markWork_marked {h : Heap} {idx : Nat} {rest : List Value}
    (hm : h.marked.get? idx = some true) :
    markWork h (Value.object idx :: rest) = markWork h rest := by
  simp only [markWork]
  split
  · next heq => rw [hm] at heq; cases heq
  · rfl
  · next heq => rw [hm] at heq; cases heq

theorem markWork_set {h : Heap} {idx : Nat} {rest : List Value}
    (hm : h.marked.get? idx = some false) :
    markWork h (Value.object idx :: rest) =
      (let h1 : Heap := { h with marked := h.marked.set idx true }
       match h.objects.get? idx with
       | none => none
       | some none => markWork h1 rest
       | some (some (HeapObject.str _)) => markWork h1 rest
       | some (some (HeapObject.struct _ fields)) =>
           markWork h1 (fieldValues fields ++ rest)) := by
  simp only [markWork]
  split
  · next heq => rw [hm] at heq; cases heq
  · next heq => rw [hm] at heq; cases heq
  · rfl

theorem markWork_nonobj {h : Heap} {v : Value} {rest : List Value}
    (hv : ∀ idx, v = Value.object idx → False) :
    markWork h (v :: rest) = markWork h rest := by
  cases v with
  | object idx => exact absurd rfl (hv idx)
  | int n => simp [markWork]
  | float n => simp [markWork]
  | bool b => simp [markWork]
  | actor a => simp [markWork]
  | unit => simp [markWork]

/-- Marking changes only the mark bits: objects and free list are untouched
and the mark array keeps its length. -/
theorem markWork_frame : ∀ (h : Heap) (ws : List Value), ∀ h' : Heap,
    markWork h ws = some h' →
    h'.objects = h.objects ∧ h'.free_list = h.free_list ∧ h'.marked.length = h.marked.length := by
  intro h ws
  induction h, ws using markWork.induct with
  | case1 h =>
    intro h' he
    rw [markWork_nil] at he
    cases he
    exact ⟨rfl, rfl, rfl⟩
  | case2 h rest idx hm =>
    intro h' he
    rw [markWork_oob hm] at he
    cases he
  | case3 h rest idx hm ih =>
    intro h' he
    rw [markWork_marked hm] at he
    exact ih h' he
  | case4 h rest idx hm h1 ho =>
    intro h' he
    have ho' : h.objects.get? idx = none := ho
    rw [markWork_set hm] at he
    simp only [ho'] at he
    cases he
  | case5 h rest idx hm h1 ho ih =>
    intro h' he
    have ho' : h.objects.get? idx = some none := ho
    rw [markWork_set hm] at he
    simp only [ho'] at he
    obtain ⟨o1, o2, o3⟩ := ih h' he
    refine ⟨o1, o2, ?_⟩
    rw [o3]
    simp
  | case6 h rest idx hm h1 a ho ih =>
    intro h' he
    have ho' : h.objects.get? idx = some (some (HeapObject.str a)) := ho
    rw [markWork_set hm] at he
    simp only [ho'] at he
    obtain ⟨o1, o2, o3⟩ := ih h' he
    refine ⟨o1, o2, ?_⟩
    rw [o3]
    simp
  | case7 h rest idx hm h1 a fields ho ih =>
    intro h' he
    have ho' : h.objects.get? idx = some (some (HeapObject.struct a fields)) := ho
    rw [markWork_set hm] at he
    simp only [ho'] at he
    obtain ⟨o1, o2, o3⟩ := ih h' he
    refine ⟨o1, o2, ?_⟩
    rw [o3]
    simp
  | case8 h v rest hv ih =>
    intro h' he
    rw [markWork_nonobj hv] at he
    exact ih h' he

theorem get?_set_true_of_true {l : List Bool} {i idx : Nat} (hi : l.get? i = some true) :
    (l.set idx true).get? i = some true := by
  by_cases hii : idx = i
  · subst hii
    rw [List.get?_set_eq]
    rw [hi]
    rfl
  · rw [List.get?_set_ne _ _ hii]
    exact hi

theorem of_get?_set_true {l : List Bool} {i idx : Nat}
    (h : (l.set idx true).get? i = some true) : i = idx ∨ l.get? i = some true := by
  by_cases hii : i = idx
  · exact Or.inl hii
  · right
    rw [List.get?_set_ne _ _ (fun hh => hii hh.symm)] at h
    exact h

theorem get?_set_true_self {l : List Bool} {idx : Nat} {b : Bool} (hm : l.get? idx = some b) :
    (l.set idx true).get? idx = some true := by
  rw [List.get?_set_eq, hm]
  rfl

/-- Marking is monotone on mark bits. -/
theorem markWork_mono : ∀ (h : Heap) (ws : List Value), ∀ (h' : Heap) (i : Nat),
    markWork h ws = some h' → h.marked.get? i = some true → h'.marked.get? i = some true := by
  intro h ws
  induction h, ws using markWork.induct with
  | case1 h =>
    intro h' i he hi
    rw [markWork_nil] at he
    cases he
    exact hi
  | case2 h rest idx hm =>
    intro h' i he hi
    rw [markWork_oob hm] at he
    cases he
  | case3 h rest idx hm ih =>
    intro h' i he hi
    rw [markWork_marked hm] at he
    exact ih h' i he hi
  | case4 h rest idx hm h1 ho =>
    intro h' i he hi
    have ho' : h.objects.get? idx = none := ho
    rw [markWork_set hm] at he
    simp only [ho'] at he
    cases he
  | case5 h rest idx hm h1 ho ih =>
    intro h' i he hi
    have ho' : h.objects.get? idx = some none := ho
    rw [markWork_set hm] at he
    simp only [ho'] at he
    exact ih h' i he (get?_set_true_of_true hi)
  | case6 h rest idx hm h1 a ho ih =>
    intro h' i he hi
    have ho' : h.objects.get? idx = some (some (HeapObject.str a)) := ho
    rw [markWork_set hm] at he
    simp only [ho'] at he
    exact ih h' i he (get?_set_true_of_true hi)
  | case7 h rest idx hm h1 a fields ho ih =>
    intro h' i he hi
    have ho' : h.objects.get? idx = some (some (HeapObject.struct a fields)) := ho
    rw [markWork_set hm] at he
    simp only [ho'] at he
    exact ih h' i he (get?_set_true_of_true hi)
  | case8 h v rest hv ih =>
    intro h' i he hi
    rw [markWork_nonobj hv] at he
    exact ih h' i he hi

/-- Every object root on the worklist ends up marked. -/
theorem markWork_roots_marked : ∀ (h : Heap) (ws : List Value), ∀ (h' : Heap) (i : Nat),
    markWork h ws = some h' → Value.object i ∈ ws → h'.marked.get? i = some true := by
  intro h ws
  induction h, ws using markWork.induct with
  | case1 h =>
    intro h' i he hi
    cases hi
  | case2 h rest idx hm =>
    intro h' i he hi
    rw [markWork_oob hm] at he
    cases he
  | case3 h rest idx hm ih =>
    intro h' i he hi
    rw [markWork_marked hm] at he
    rcases List.mem_cons.mp hi with hi | hi
    · cases hi
      exact markWork_mono _ _ _ _ he hm
    · exact ih h' i he hi
  | case4 h rest idx hm h1 ho =>
    intro h' i he hi
    have ho' : h.objects.get? idx = none := ho
    rw [markWork_set hm] at he
    simp only [ho'] at he
    cases he
  | case5 h rest idx hm h1 ho ih =>
    intro h' i he hi
    have ho' : h.objects.get? idx = some none := ho
    rw [markWork_set hm] at he
    simp only [ho'] at he
    rcases List.mem_cons.mp hi with hi | hi
    · cases hi
      exact markWork_mono _ _ _ _ he (get?_set_true_self hm)
    · exact ih h' i he hi
  | case6 h rest idx hm h1 a ho ih =>
    intro h' i he hi
    have ho' : h.objects.get? idx = some (some (HeapObject.str a)) := ho
    rw [markWork_set hm] at he
    simp only [ho'] at he
    rcases List.mem_cons.mp hi with hi | hi
    · cases hi
      exact markWork_mono _ _ _ _ he (get?_set_true_self hm)
    · exact ih h' i he hi
  | case7 h rest idx hm h1 a fields ho ih =>
    intro h' i he hi
    have ho' : h.objects.get? idx = some (some (HeapObject.struct a fields)) := ho
    rw [markWork_set hm] at he
    simp only [ho'] at he
    rcases List.mem_cons.mp hi with hi | hi
    · cases hi
      exact markWork_mono _ _ _ _ he (get?_set_true_self hm)
    · exact ih h' i he (List.mem_append.mpr (Or.inr hi))
  | case8 h v rest hv ih =>
    intro h' i he hi
    rw [markWork_nonobj hv] at he
    rcases List.mem_cons.mp hi with hi | hi
    · exact (hv i hi.symm).elim
    · exact ih h' i he hi


/-- Reachability is monotone in the root list. -/
theorem ReachesW_mono_ws {objects : List (Option HeapObject)} {ws ws' : List Value} {i : Nat}
    (hsub : ∀ v ∈ ws, v ∈ ws') (h : ReachesW objects ws i) : ReachesW objects ws' i := by
  induction h with
  | root i hi => exact ReachesW.root i (hsub _ hi)
  | step i j name fields _ hobj hf ih => exact ReachesW.step i j name fields ih hobj hf

/-- Anything reachable from the fields of a struct at `idx` is reachable once
`Object(idx)` itself is a root. -/
theorem ReachesW_through_struct {objects : List (Option HeapObject)} {idx : Nat}
    {name : String} {fields : List (String × Value)} {rest : List Value} {i : Nat}
    (hobj : objects.get? idx = some (some (HeapObject.struct name fields)))
    (h : ReachesW objects (fieldValues fields ++ rest) i) :
    ReachesW objects (Value.object idx :: rest) i := by
  induction h with
  | root k hk =>
    rcases List.mem_append.mp hk with hk | hk
    · exact ReachesW.step idx k name fields (ReachesW.root idx (List.mem_cons_self _ _)) hobj hk
    · exact ReachesW.root k (List.mem_cons_of_mem _ hk)
  | step a b nm fs _ hobj2 hf ih => exact ReachesW.step a b nm fs ih hobj2 hf

/-- Soundness of marking: every finally marked index was already marked or is
reachable from the worklist. -/
theorem markWork_sound : ∀ (h : Heap) (ws : List Value), ∀ (h' : Heap) (i : Nat),
    markWork h ws = some h' → h'.marked.get? i = some true →
    h.marked.get? i = some true ∨ ReachesW h.objects ws i := by
  intro h ws
  induction h, ws using markWork.induct with
  | case1 h =>
    intro h' i he hi
    rw [markWork_nil] at he
    cases he
    exact Or.inl hi
  | case2 h rest idx hm =>
    intro h' i he hi
    rw [markWork_oob hm] at he
    cases he
  | case3 h rest idx hm ih =>
    intro h' i he hi
    rw [markWork_marked hm] at he
    rcases ih h' i he hi with hh | hh
    · exact Or.inl hh
    · exact Or.inr (ReachesW_mono_ws (fun v hv => List.mem_cons_of_mem _ hv) hh)
  | case4 h rest idx hm h1 ho =>
    intro h' i he hi
    have ho' : h.objects.get? idx = none := ho
    rw [markWork_set hm] at he
    simp only [ho'] at he
    cases he
  | case5 h rest idx hm h1 ho ih =>
    intro h' i he hi
    have ho' : h.objects.get? idx = some none := ho
    rw [markWork_set hm] at he
    simp only [ho'] at he
    rcases ih h' i he hi with hh | hh
    · rcases of_get?_set_true hh with rfl | hh
      · exact Or.inr (ReachesW.root i (List.mem_cons_self _ _))
      · exact Or.inl hh
    · exact Or.inr (ReachesW_mono_ws (fun v hv => List.mem_cons_of_mem _ hv) hh)
  | case6 h rest idx hm h1 a ho ih =>
    intro h' i he hi
    have ho' : h.objects.get? idx = some (some (HeapObject.str a)) := ho
    rw [markWork_set hm] at he
    simp only [ho'] at he
    rcases ih h' i he hi with hh | hh
    · rcases of_get?_set_true hh with rfl | hh
      · exact Or.inr (ReachesW.root i (List.mem_cons_self _ _))
      · exact Or.inl hh
    · exact Or.inr (ReachesW_mono_ws (fun v hv => List.mem_cons_of_mem _ hv) hh)
  | case7 h rest idx hm h1 a fields ho ih =>
    intro h' i he hi
    have ho' : h.objects.get? idx = some (some (HeapObject.struct a fields)) := ho
    rw [markWork_set hm] at he
    simp only [ho'] at he
    rcases ih h' i he hi with hh | hh
    · rcases of_get?_set_true hh with rfl | hh
      · exact Or.inr (ReachesW.root i (List.mem_cons_self _ _))
      · exact Or.inl hh
    · exact Or.inr (ReachesW_through_struct ho' hh)
  | case8 h v rest hv ih =>
    intro h' i he hi
    rw [markWork_nonobj hv] at he
    rcases ih h' i he hi with hh | hh
    · exact Or.inl hh
    · exact Or.inr (ReachesW_mono_ws (fun v hv => List.mem_cons_of_mem _ hv) hh)

/-- Closure of the final mark set: the successors of every finally marked
struct are finally marked, provided the initially marked nodes already have
that property with respect to the final state (vacuous when no marks are set,
as at the start of a GC cycle). -/
theorem markWork_closed : ∀ (h : Heap) (ws : List Value), ∀ h' : Heap,
    markWork h ws = some h' →
    (∀ j name fields i, h.marked.get? j = some true →
       h.objects.get? j = some (some (HeapObject.struct name fields)) →
       Value.object i ∈ fieldValues fields → h'.marked.get? i = some true) →
    ∀ j name fields i, h'.marked.get? j = some true →
      h.objects.get? j = some (some (HeapObject.struct name fields)) →
      Value.object i ∈ fieldValues fields → h'.marked.get? i = some true := by
  intro h ws
  induction h, ws using markWork.induct with
  | case1 h =>
    intro h' he hinit j name fields i hj hobj hf
    rw [markWork_nil] at he
    cases he
    exact hinit j name fields i hj hobj hf
  | case2 h rest idx hm =>
    intro h' he hinit
    rw [markWork_oob hm] at he
    cases he
  | case3 h rest idx hm ih =>
    intro h' he hinit
    rw [markWork_marked hm] at he
    exact ih h' he hinit
  | case4 h rest idx hm h1 ho =>
    intro h' he hinit
    have ho' : h.objects.get? idx = none := ho
    rw [markWork_set hm] at he
    simp only [ho'] at he
    cases he
  | case5 h rest idx hm h1 ho ih =>
    intro h' he hinit
    have ho' : h.objects.get? idx = some none := ho
    rw [markWork_set hm] at he
    simp only [ho'] at he
    intro j name fields i hj hobj hf
    refine ih h' he ?_ j name fields i hj hobj hf
    intro j2 n2 f2 i2 hj2 hobj2 hf2
    have hobj2' : h.objects.get? j2 = some (some (HeapObject.struct n2 f2)) := hobj2
    rcases of_get?_set_true hj2 with rfl | hj2
    · rw [ho'] at hobj2'
      cases hobj2'
    · exact hinit j2 n2 f2 i2 hj2 hobj2' hf2
  | case6 h rest idx hm h1 a ho ih =>
    intro h' he hinit
    have ho' : h.objects.get? idx = some (some (HeapObject.str a)) := ho
    rw [markWork_set hm] at he
    simp only [ho'] at he
    intro j name fields i hj hobj hf
    refine ih h' he ?_ j name fields i hj hobj hf
    intro j2 n2 f2 i2 hj2 hobj2 hf2
    have hobj2' : h.objects.get? j2 = some (some (HeapObject.struct n2 f2)) := hobj2
    rcases of_get?_set_true hj2 with rfl | hj2
    · rw [ho'] at hobj2'
      cases hobj2'
    · exact hinit j2 n2 f2 i2 hj2 hobj2' hf2
  | case7 h rest idx hm h1 a fields ho ih =>
    intro h' he hinit
    have ho' : h.objects.get? idx = some (some (HeapObject.struct a fields)) := ho
    rw [markWork_set hm] at he
    simp only [ho'] at he
    intro j name flds i hj hobj hf
    refine ih h' he ?_ j name flds i hj hobj hf
    intro j2 n2 f2 i2 hj2 hobj2 hf2
    have hobj2' : h.objects.get? j2 = some (some (HeapObject.struct n2 f2)) := hobj2
    rcases of_get?_set_true hj2 with rfl | hj2
    · rw [ho'] at hobj2'
      cases hobj2'
      exact markWork_roots_marked _ _ _ _ he (List.mem_append.mpr (Or.inl hf2))
    · exact hinit j2 n2 f2 i2 hj2 hobj2' hf2
  | case8 h v rest hv ih =>
    intro h' he hinit
    rw [markWork_nonobj hv] at he
    exact ih h' he hinit

/-- Reachable indices are in bounds, for in-bounds roots on a well-formed
object graph. -/
theorem ReachesW_lt {objects : List (Option HeapObject)} {ws : List Value} {i : Nat}
    (hws : ∀ v ∈ ws, valueInBounds objects.length v)
    (hobj : ∀ o ∈ objects, objOK objects.length o)
    (h : ReachesW objects ws i) : i < objects.length := by
  induction h with
  | root k hk => exact hws _ hk
  | step a b nm fs _ hob hf _ =>
    have hmem : some (HeapObject.struct nm fs) ∈ objects := List.get?_mem hob
    have := hobj _ hmem
    exact this _ hf
  
/-- Marking terminates successfully on a well-formed heap with in-bounds
roots (no Rust panic). -/
theorem markWork_total : ∀ (h : Heap) (ws : List Value),
    h.objects.length = h.marked.length →
    (∀ v ∈ ws, valueInBounds h.objects.length v) →
    (∀ o ∈ h.objects, objOK h.objects.length o) →
    (markWork h ws).isSome = true := by
  intro h ws
  induction h, ws using markWork.induct with
  | case1 h =>
    intro _ _ _
    rw [markWork_nil]
    rfl
  | case2 h rest idx hm =>
    intro hlen hws _
    have hidx : idx < h.objects.length := hws _ (List.mem_cons_self _ _)
    have : h.marked.length ≤ idx := List.get?_eq_none.mp hm
    omega
  | case3 h rest idx hm ih =>
    intro hlen hws hobj
    rw [markWork_marked hm]
    exact ih hlen (fun v hv => hws v (List.mem_cons_of_mem _ hv)) hobj
  | case4 h rest idx hm h1 ho =>
    intro hlen hws _
    have ho' : h.objects.get? idx = none := ho
    have hidx : idx < h.objects.length := hws _ (List.mem_cons_self _ _)
    have : h.objects.length ≤ idx := List.get?_eq_none.mp ho'
    omega
  | case5 h rest idx hm h1 ho ih =>
    intro hlen hws hobj
    have ho' : h.objects.get? idx = some none := ho
    rw [markWork_set hm]
    simp only [ho']
    refine ih ?_ (fun v hv => hws v (List.mem_cons_of_mem _ hv)) hobj
    simpa using hlen
  | case6 h rest idx hm h1 a ho ih =>
    intro hlen hws hobj
    have ho' : h.objects.get? idx = some (some (HeapObject.str a)) := ho
    rw [markWork_set hm]
    simp only [ho']
    refine ih ?_ (fun v hv => hws v (List.mem_cons_of_mem _ hv)) hobj
    simpa using hlen
  | case7 h rest idx hm h1 a fields ho ih =>
    intro hlen hws hobj
    have ho' : h.objects.get? idx = some (some (HeapObject.struct a fields)) := ho
    rw [markWork_set hm]
    simp only [ho']
    refine ih ?_ ?_ hobj
    · simpa using hlen
    · intro v hv
      rcases List.mem_append.mp hv with hv | hv
      · have hmem : some (HeapObject.struct a fields) ∈ h.objects := List.get?_mem ho'
        exact hobj _ hmem _ hv
      · exact hws v (List.mem_cons_of_mem _ hv)
  | case8 h v rest hv ih =>
    intro hlen hws hobj
    rw [markWork_nonobj hv]
    exact ih hlen (fun v2 hv2 => hws v2 (List.mem_cons_of_mem _ hv2)) hobj

theorem sweepFrom_marked : ∀ (l : List Nat) (h : Heap), (sweepFrom h l).marked = h.marked := by
  intro l
  induction l with
  | nil => intro h; rfl
  | cons i rest ih =>
    intro h
    rw [sweepFrom]
    split
    · rw [ih]
    · rw [ih]

theorem sweepFrom_objects_length : ∀ (l : List Nat) (h : Heap),
    (sweepFrom h l).objects.length = h.objects.length := by
  intro l
  induction l with
  | nil => intro h; rfl
  | cons i rest ih =>
    intro h
    rw [sweepFrom]
    split
    · rw [ih]
      simp
    · rw [ih]

theorem sweepFrom_free_mono : ∀ (l : List Nat) (h : Heap) {j : Nat},
    j ∈ h.free_list → j ∈ (sweepFrom h l).free_list := by
  intro l
  induction l with
  | nil => intro h j hj; exact hj
  | cons i rest ih =>
    intro h j hj
    rw [sweepFrom]
    split
    · exact ih _ (List.mem_append.mpr (Or.inl hj))
    · exact ih _ hj

/-- A slot whose mark bit is set survives the sweep untouched. -/
theorem sweepFrom_keeps_marked : ∀ (l : List Nat) (h : Heap) {j : Nat},
    h.marked.get? j = some true →
    (sweepFrom h l).objects.get? j = h.objects.get? j := by
  intro l
  induction l with
  | nil => intro h j hj; rfl
  | cons i rest ih =>
    intro h j hj
    rw [sweepFrom]
    split
    · next hcond =>
      by_cases hij : i = j
      · subst hij
        rw [List.getD_eq_get?, hj] at hcond
        simp at hcond
      · have h2eq := ih ⟨h.objects.set i none, h.marked, h.free_list ++ [i]⟩ hj
        rw [h2eq]
        exact List.get?_set_ne _ _ hij
    · exact ih _ hj

/-- An already-cleared slot stays cleared through the sweep. -/
theorem sweepFrom_none_stable : ∀ (l : List Nat) (h : Heap) {j : Nat},
    h.objects.get? j = some none →
    (sweepFrom h l).objects.get? j = some none := by
  intro l
  induction l with
  | nil => intro h j hj; exact hj
  | cons i rest ih =>
    intro h j hj
    rw [sweepFrom]
    split
    · next hcond =>
      by_cases hij : i = j
      · subst hij
        simp only [List.getD_eq_get?] at hcond
        rw [hj] at hcond
        simp at hcond
      · refine ih _ ?_
        rw [List.get?_set_ne _ _ hij]
        exact hj
    · exact ih _ hj

/-- An occupied, unmarked slot in the sweep range is cleared and pushed onto
the free list. -/
theorem sweepFrom_clears : ∀ (l : List Nat) (h : Heap) {j : Nat},
    j ∈ l → j < h.objects.length →
    h.marked.get? j = some false →
    (∃ o, h.objects.get? j = some (some o)) →
    (sweepFrom h l).objects.get? j = some none ∧ j ∈ (sweepFrom h l).free_list := by
  intro l
  induction l with
  | nil => intro h j hj; cases hj
  | cons i rest ih =>
    intro h j hjl hjlen hjm hjo
    obtain ⟨o, hjo⟩ := hjo
    by_cases hij : j = i
    · subst hij
      rw [sweepFrom]
      split
      · constructor
        · apply sweepFrom_none_stable
          rw [List.get?_set_eq, hjo]
          rfl
        · apply sweepFrom_free_mono
          simp
      · next hcond =>
        exfalso
        apply hcond
        constructor
        · rw [List.getD_eq_get?, hjm]
          rfl
        · rw [List.getD_eq_get?, hjo]
          rfl
    · have hjrest : j ∈ rest := by
        rcases List.mem_cons.mp hjl with hh | hh
        · exact absurd hh hij
        · exact hh
      rw [sweepFrom]
      split
      · refine ih _ hjrest ?_ hjm ?_
        · simpa using hjlen
        · refine ⟨o, ?_⟩
          rw [List.get?_set_ne _ _ (fun hh => hij hh.symm)]
          exact hjo
      · exact ih _ hjrest hjlen hjm ⟨o, hjo⟩

/-- Core mark-sweep correctness, for an arbitrary root list. -/
theorem gcRun_correct (h : Heap) (roots : List Value)
    (hwf : h.wf) (hroots : ∀ v ∈ roots, valueInBounds h.objects.length v) :
    ∃ h', h.gcRun roots = some h' ∧
      (∀ i, ReachesW h.objects roots i → h'.objects.get? i = h.objects.get? i) ∧
      (∀ i o, h.objects.get? i = some (some o) → ¬ ReachesW h.objects roots i →
         h'.objects.get? i = some none ∧ i ∈ h'.free_list) ∧
      (∀ i, i < h.objects.length →
         (h'.marked.get? i = some true ↔ ReachesW h.objects roots i)) := by
  obtain ⟨hlen, hobj⟩ := hwf
  have h0len : (({ h with marked := h.marked.map (fun _ => false) } : Heap)).objects.length =
      (({ h with marked := h.marked.map (fun _ => false) } : Heap)).marked.length := by
    simp [hlen]
  have h0nomark : ∀ i, ¬ (({ h with marked := h.marked.map (fun _ => false) } : Heap)).marked.get? i = some true := by
    intro i hi
    simp only [List.get?_map] at hi
    cases hmi : h.marked.get? i <;> rw [hmi] at hi <;> simp at hi
  have htot := markWork_total { h with marked := h.marked.map (fun _ => false) } roots h0len hroots hobj
  obtain ⟨h1, hmark⟩ := Option.isSome_iff_exists.mp htot
  obtain ⟨hf1, hf2, hf3⟩ := markWork_frame _ roots h1 hmark
  have h1objects : h1.objects = h.objects := hf1
  have h1mlen : h1.marked.length = h.objects.length := by
    rw [hf3]
    simp [hlen]
  have hiff : ∀ i, h1.marked.get? i = some true ↔ ReachesW h.objects roots i := by
    intro i
    constructor
    · intro hi
      rcases markWork_sound _ roots h1 i hmark hi with hcontra | hr
      · exact absurd hcontra (h0nomark i)
      · exact hr
    · intro hr
      induction hr with
      | root k hk => exact markWork_roots_marked _ roots h1 k hmark hk
      | step a b nm fs hra hob hf iha =>
        exact markWork_closed _ roots h1 hmark
          (fun j n f i2 hj _ _ => absurd hj (h0nomark j)) a nm fs b iha hob hf
  have hrun : h.gcRun roots = some (sweepFrom h1 (List.range h1.objects.length)) := by
    simp only [Heap.gcRun]
    rw [hmark]
  refine ⟨_, hrun, ?_, ?_, ?_⟩
  · intro i hr
    have hi : h1.marked.get? i = some true := (hiff i).mpr hr
    rw [sweepFrom_keeps_marked _ _ hi, h1objects]
  · intro i o hio hnr
    have hilen : i < h.objects.length := by
      by_contra hge
      rw [List.get?_eq_none.mpr (by omega)] at hio
      cases hio
    have hilen1 : i < h1.objects.length := by rw [h1objects]; exact hilen
    have hmarkedi : h1.marked.get? i = some false := by
      cases hgm : h1.marked.get? i with
      | none =>
        have hge := List.get?_eq_none.mp hgm
        rw [h1mlen] at hge
        omega
      | some b =>
        cases b with
        | true => exact absurd ((hiff i).mp hgm) hnr
        | false => rfl
    have hocc : ∃ o2, h1.objects.get? i = some (some o2) := ⟨o, by rw [h1objects]; exact hio⟩
    exact sweepFrom_clears (List.range h1.objects.length) h1
      (List.mem_range.mpr hilen1) hilen1 hmarkedi hocc
  · intro i hilen
    rw [sweepFrom_marked]
    exact hiff i


/-! ### Hot-path tracker (claim C5) -/

theorem record_call_hot_mono {t : HotPathTracker} {c name : String}
    (h : name ∈ t.hot_functions) : name ∈ (t.record_call c).1.hot_functions := by
  unfold HotPathTracker.record_call
  dsimp only
  split
  · exact List.mem_append.mpr (Or.inl h)
  · exact h

theorem record_call_true_iff (t : HotPathTracker) (name : String) :
    (t.record_call name).2 = true ↔
      ((t.get_call_count name + 1) % 2 ^ 64 = HOT_THRESHOLD ∧ ¬ name ∈ t.hot_functions) := by
  unfold HotPathTracker.record_call HotPathTracker.get_call_count
  dsimp only
  split
  · next hcond => simpa using hcond
  · next hcond => simpa using hcond

theorem record_call_true_hot_after {t : HotPathTracker} {name : String}
    (h : (t.record_call name).2 = true) : name ∈ (t.record_call name).1.hot_functions := by
  unfold HotPathTracker.record_call at h ⊢
  dsimp only at h ⊢
  split at h
  · next hcond =>
    rw [if_pos hcond]
    exact List.mem_append.mpr (Or.inr (by simp))
  · cases h

theorem numTrues_zero_of_hot : ∀ (calls : List String) (t : HotPathTracker) {name : String},
    name ∈ t.hot_functions → numTrues t calls name = 0 := by
  intro calls
  induction calls with
  | nil => intro t name _; rfl
  | cons c rest ih =>
    intro t name h
    rw [numTrues]
    rw [ih _ (record_call_hot_mono h)]
    by_cases hc : c = name
    · subst hc
      by_cases hb : (t.record_call c).2 = true
      · exact absurd h ((record_call_true_iff t c).mp hb).2
      · simp [hb]
    · simp [hc]

theorem numTrues_le_one : ∀ (calls : List String) (t : HotPathTracker) (name : String),
    numTrues t calls name ≤ 1 := by
  intro calls
  induction calls with
  | nil => intro t name; exact Nat.zero_le 1
  | cons c rest ih =>
    intro t name
    rw [numTrues]
    by_cases hb : (t.record_call c).2 = true ∧ c = name
    · obtain ⟨hb1, rfl⟩ := hb
      rw [numTrues_zero_of_hot rest _ (record_call_true_hot_after hb1)]
      simp [hb1]
    · rw [if_neg hb]
      simpa using ih (t.record_call c).1 name

theorem iterCalls_state (name : String) : ∀ n, n ≤ 99 →
    iterCalls HotPathTracker.new name n =
      { call_counts := if n = 0 then [] else [(name, n)], hot_functions := [] } := by
  intro n
  induction n with
  | zero => intro _; rfl
  | succ k ih =>
    intro hk
    rw [iterCalls, ih (by omega)]
    have hget : alookup (if k = 0 then ([] : List (String × Nat)) else [(name, k)]) name =
        if k = 0 then none else some k := by
      by_cases hz : k = 0 <;> simp [hz, alookup]
    have hcount : ((alookup (if k = 0 then ([] : List (String × Nat)) else [(name, k)]) name).getD 0 + 1) % 2 ^ 64
        = k + 1 := by
      rw [hget]
      by_cases hz : k = 0
      · simp [hz]
      · simp [hz]
        omega
    have hins : ainsert (if k = 0 then ([] : List (String × Nat)) else [(name, k)]) name (k + 1)
        = [(name, k + 1)] := by
      by_cases hz : k = 0 <;> simp [hz, ainsert]
    have hcond : ¬ ((k + 1 = HOT_THRESHOLD) ∧ ¬ name ∈ ([] : List String)) := by
      rw [HOT_THRESHOLD]
      intro hc
      omega
    unfold HotPathTracker.record_call
    dsimp only
    simp only [hcount, hins]
    rw [if_neg hcond]
    simp

theorem record_call_boundary (name : String) :
    (iterCalls HotPathTracker.new name 99).record_call name =
      ({ call_counts := [(name, 100)], hot_functions := [name] }, true) := by
  rw [iterCalls_state name 99 (by omega)]
  unfold HotPathTracker.record_call
  dsimp only
  rw [if_pos]
  · simp [alookup, ainsert]
  · constructor
    · simp [alookup, HOT_THRESHOLD]
    · simp

/-- C5: `record_call(name)` increments the per-function counter and returns
`true` exactly when the new count equals the hotness threshold (100) and the
name is not yet hot; over any sequence of calls it returns `true` at most
once per name, the boundary (100th) call returns `true`, and a function
called `HOT_THRESHOLD` times ends with `is_hot = true`. -/
theorem record_call_true_exactly_at_threshold :
    (∀ (t : HotPathTracker) (name : String),
        (t.record_call name).2 = true ↔
          ((t.get_call_count name + 1) % 2 ^ 64 = HOT_THRESHOLD ∧ ¬ name ∈ t.hot_functions))
    ∧ (∀ (t : HotPathTracker) (calls : List String) (name : String),
        numTrues t calls name ≤ 1)
    ∧ (∀ name : String,
        (iterCalls HotPathTracker.new name 99).record_call name =
          ({ call_counts := [(name, HOT_THRESHOLD)], hot_functions := [name] }, true))
    ∧ (∀ name : String, (iterCalls HotPathTracker.new name HOT_THRESHOLD).is_hot name = true) := by
  refine ⟨record_call_true_iff, fun t calls name => numTrues_le_one calls t name,
          record_call_boundary, ?_⟩
  intro name
  have h100 : iterCalls HotPathTracker.new name HOT_THRESHOLD =
      ({ call_counts := [(name, 100)], hot_functions := [name] } : HotPathTracker) := by
    have : iterCalls HotPathTracker.new name HOT_THRESHOLD =
        ((iterCalls HotPathTracker.new name 99).record_call name).1 := rfl
    rw [this, record_call_boundary]
  rw [h100]
  simp [HotPathTracker.is_hot]


/-! ### Argument seeding (claim C4) -/

theorem FastLocals.get?_set_self (l : FastLocals) (slot : Nat) (v : Value) :
    (l.set slot v).slots.get? slot = some v := by
  unfold FastLocals.set
  dsimp only
  split
  · next hle =>
    have hlt : slot < (l.slots ++ List.replicate (slot + 1 - l.slots.length) Value.unit).length := by
      simp
      omega
    cases hx : (l.slots ++ List.replicate (slot + 1 - l.slots.length) Value.unit).get? slot with
    | none =>
      have := List.get?_eq_none.mp hx
      omega
    | some x =>
      rw [List.get?_set_eq, hx]
      rfl
  · next hle =>
    have hlt : slot < l.slots.length := by omega
    cases hx : l.slots.get? slot with
    | none =>
      have := List.get?_eq_none.mp hx
      omega
    | some x =>
      rw [List.get?_set_eq, hx]
      rfl

theorem FastLocals.get?_set_preserve {l : FastLocals} {j slot : Nat} {v x : Value}
    (hne : j ≠ slot) (hj : l.slots.get? j = some x) :
    (l.set slot v).slots.get? j = some x := by
  unfold FastLocals.set
  dsimp only
  have hjl : j < l.slots.length := by
    by_contra hge
    rw [List.get?_eq_none.mpr (by omega)] at hj
    cases hj
  split
  · rw [List.get?_set_ne _ _ (fun hh => hne hh.symm)]
    rw [List.get?_append hjl]
    exact hj
  · rw [List.get?_set_ne _ _ (fun hh => hne hh.symm)]
    exact hj

theorem setArgsFrom_preserve : ∀ (args : List Value) (l : FastLocals) (start j : Nat) (x : Value),
    j < start → l.slots.get? j = some x → (setArgsFrom l start args).slots.get? j = some x := by
  intro args
  induction args with
  | nil => intro l start j x _ hj; exact hj
  | cons a rest ih =>
    intro l start j x hjs hj
    rw [setArgsFrom]
    exact ih _ _ _ _ (by omega) (FastLocals.get?_set_preserve (by omega) hj)

theorem setArgsFrom_get? : ∀ (args : List Value) (l : FastLocals) (start i : Nat),
    i < args.length → (setArgsFrom l start args).slots.get? (start + i) = args.get? i := by
  intro args
  induction args with
  | nil => intro l start i hi; cases hi
  | cons a rest ih =>
    intro l start i hi
    cases i with
    | zero =>
      rw [setArgsFrom]
      exact setArgsFrom_preserve rest _ (start + 1) start a (by omega)
        (FastLocals.get?_set_self l start a)
    | succ k =>
      rw [setArgsFrom]
      have harith : start + (k + 1) = (start + 1) + k := by omega
      rw [harith]
      exact ih _ (start + 1) k (by simpa using hi)

/-- C4: `execute(entry, args)` seeds the entry locals with the arguments in
order (`locals[0..N] = args`), and the concrete program
`add(a, b) = LoadVar a; LoadVar b; Add; Ret` run as
`execute("add", [Int 40, Int 2])` returns `Int 42`. -/
theorem execute_seeds_locals_add_returns_42 :
    (∀ (vm : OptimizedVM) (args : List Value) (i : Nat), i < args.length →
       (setArgsFrom vm.context.locals 0 args).get i = args.get? i)
    ∧ ((OptimizedVM.new.load_program [addIR]).execute 20 "add"
         [Value.int 40, Value.int 2]).2 = ExecOut.ok (Value.int 42) := by
  constructor
  · intro vm args i hi
    have := setArgsFrom_get? args vm.context.locals 0 i hi
    simpa [FastLocals.get] using this
  · decide

/-- Witness for C4: the seeding clause evaluated at a concrete argument
vector, and the concrete `add` run. -/
theorem execute_seeds_locals_add_returns_42_witness :
    (setArgsFrom OptimizedVM.new.context.locals 0 [Value.int 7, Value.bool true]).get 1 =
      some (Value.bool true) :=
  execute_seeds_locals_add_returns_42.1 OptimizedVM.new
    [Value.int 7, Value.bool true] 1 (by decide)


/-! ### Division dispatch (claim C6) -/

/-- C6: `Div` requires both popped operands to be `Int` — otherwise the
execution fails with the type-mismatch error — and with `Int` operands and a
zero divisor it fails with the division-by-zero error (in both the generic
VM dispatch and the specialized `IntDiv` dispatch); a program computing
`1/0` makes `execute` return the division-by-zero error. -/
theorem div_dispatch_errors :
    (∀ (vm : VMState) (func : IRFunction) (va vb : Value) (rest : List Value),
       vm.stack = vb :: va :: rest →
       ¬ (∃ x y : Int, va = Value.int x ∧ vb = Value.int y) →
       execOpcode vm func Opcode.div =
         StepOut.fail "Invalid types for Div" { vm with stack := rest })
    ∧ (∀ (vm : VMState) (func : IRFunction) (a : Int) (rest : List Value),
       vm.stack = Value.int 0 :: Value.int a :: rest →
       execOpcode vm func Opcode.div =
         StepOut.fail "Division by zero" { vm with stack := rest })
    ∧ (∀ (ctx : OptimizedContext) (a : Int) (rest : List Value),
       ctx.stack = Value.int 0 :: Value.int a :: rest →
       execute_specialized ctx SpecializedOpcode.intDiv = SpecOut.err "Division by zero")
    ∧ (∀ (ctx : OptimizedContext) (va vb : Value) (rest : List Value),
       ctx.stack = vb :: va :: rest →
       ¬ (∃ x y : Int, va = Value.int x ∧ vb = Value.int y) →
       execute_specialized ctx SpecializedOpcode.intDiv = SpecOut.err "Type error in IntDiv")
    ∧ (vmExecute [("main", divZeroIR)] "main" 20).errMsg? = some "Division by zero" := by
  refine ⟨?_, ?_, ?_, ?_, by decide⟩
  · intro vm func va vb rest hstack hne
    obtain ⟨stk, cs, fns, gl, hp, reg, cid, gt, mb, sp⟩ := vm
    simp only at hstack
    subst hstack
    cases va <;> cases vb <;> simp [execOpcode] <;>
      exact absurd ⟨_, _, rfl, rfl⟩ hne
  · intro vm func a rest hstack
    obtain ⟨stk, cs, fns, gl, hp, reg, cid, gt, mb, sp⟩ := vm
    simp only at hstack
    subst hstack
    simp [execOpcode]
  · intro ctx a rest hstack
    obtain ⟨stk, loc, tr, ic⟩ := ctx
    simp only at hstack
    subst hstack
    simp [execute_specialized]
  · intro ctx va vb rest hstack hne
    obtain ⟨stk, loc, tr, ic⟩ := ctx
    simp only at hstack
    subst hstack
    cases va <;> cases vb <;> simp [execute_specialized, specIntBin] <;>
      exact absurd ⟨_, _, rfl, rfl⟩ hne

/-- Witness for C6: the dispatch clauses applied at concrete states, and the
concrete `1/0` program. -/
theorem div_dispatch_errors_witness :
    execOpcode { (VMState.new []) with stack := [Value.bool true, Value.int 1] }
        addIR Opcode.div =
      StepOut.fail "Invalid types for Div" { (VMState.new []) with stack := [] }
    ∧ execOpcode { (VMState.new []) with stack := [Value.int 0, Value.int 1] }
        addIR Opcode.div =
      StepOut.fail "Division by zero" { (VMState.new []) with stack := [] }
    ∧ execute_specialized { OptimizedContext.new with stack := [Value.int 0, Value.int 7] }
        SpecializedOpcode.intDiv = SpecOut.err "Division by zero" :=
  ⟨div_dispatch_errors.1 _ addIR (Value.int 1) (Value.bool true) [] rfl
     (by intro h; obtain ⟨x, y, _, hy⟩ := h; cases hy),
   div_dispatch_errors.2.1 _ addIR 1 [] rfl,
   div_dispatch_errors.2.2.1 _ 7 [] rfl⟩


/-! ### Call arity (claim C8) -/

/-- Counterexample to C8 as stated: calling two-parameter `add` with one
argument does not fail with a `CallArityMismatch` error — execution proceeds
into the callee and later fails with the unknown-variable error for the
unbound parameter `b`.  (No arity error exists anywhere in the VM.) -/
theorem call_arity_counterexample :
    (vmExecute [("main", arityMainIR), ("add", addIR)] "main" 30).errMsg? =
      some "Variable b not found" := by decide

/-- C8 amended: a `Call(name, k)` whose argument count `k` differs from the
callee's declared parameter count does not fail at the call — the dispatch
pops `k` arguments and enters the callee with `params.zip(args)` bound
(truncating to the shorter list), for every `k`. -/
theorem call_step_no_arity_check (vm : VMState) (func target_func : IRFunction)
    (name : String) (k : Nat)
    (hk : k ≤ vm.stack.length)
    (hf : alookup vm.functions name = some target_func) :
    execOpcode vm func (Opcode.call name k) = StepOut.next { vm with
      stack := vm.stack.drop k,
      call_stack := { func_name := name, current_block_idx := 0, current_instr_idx := 0,
                      locals := bindParams target_func.params ((vm.stack.take k).reverse) }
        :: vm.call_stack } := by
  simp only [execOpcode, popArgs]
  rw [if_pos hk, hf]

/-- Witness for the amended C8: the `Call("add", 1)` step at a concrete state
(arity 2 callee, 1 argument) succeeds and binds only `a`. -/
theorem call_step_no_arity_check_witness :
    execOpcode
        { (VMState.new [("add", addIR)]) with
          stack := [Value.int 1],
          call_stack := [⟨"main", 0, 2, []⟩] }
        arityMainIR (Opcode.call "add" 1) =
      StepOut.next { (VMState.new [("add", addIR)]) with
        stack := [],
        call_stack := [⟨"add", 0, 0, bindParams addIR.params [Value.int 1]⟩,
                       ⟨"main", 0, 2, []⟩] } :=
  call_step_no_arity_check _ arityMainIR addIR "add" 1 (by decide) (by decide)


/-! ### Send (claim C9) -/

/-- C9: `Send` pops a message and a target; for an `Actor` target it never
blocks, never fails, and continues as `next`: the message is appended to the
target's FIFO mailbox when the mailbox is open, and the send is dropped
(state otherwise unchanged) when the mailbox is closed or the target is not
registered. -/
theorem send_never_blocks_or_fails :
    (∀ (vm : VMState) (func : IRFunction) (msg : Value) (id : Nat) (rest : List Value)
       (meta : ActorMetadata),
       vm.stack = msg :: Value.actor id :: rest →
       alookup vm.registry.actors id = some meta → meta.mailbox_open = true →
       execOpcode vm func Opcode.send = StepOut.next
         { vm with
           stack := rest,
           registry := { vm.registry with
             actors := amodify vm.registry.actors id
                           (fun m => { m with mailbox := m.mailbox ++ [msg] }) } })
    ∧ (∀ (vm : VMState) (func : IRFunction) (msg : Value) (id : Nat) (rest : List Value)
       (meta : ActorMetadata),
       vm.stack = msg :: Value.actor id :: rest →
       alookup vm.registry.actors id = some meta → meta.mailbox_open = false →
       execOpcode vm func Opcode.send = StepOut.next { vm with stack := rest })
    ∧ (∀ (vm : VMState) (func : IRFunction) (msg : Value) (id : Nat) (rest : List Value),
       vm.stack = msg :: Value.actor id :: rest →
       alookup vm.registry.actors id = none →
       execOpcode vm func Opcode.send = StepOut.next { vm with stack := rest }) := by
  refine ⟨?_, ?_, ?_⟩
  · intro vm func msg id rest meta hstack hmeta hopen
    obtain ⟨stk, cs, fns, gl, hp, reg, cid, gt, mb, sp⟩ := vm
    simp only at hstack hmeta
    subst hstack
    simp [execOpcode, hmeta, hopen]
  · intro vm func msg id rest meta hstack hmeta hopen
    obtain ⟨stk, cs, fns, gl, hp, reg, cid, gt, mb, sp⟩ := vm
    simp only at hstack hmeta
    subst hstack
    simp [execOpcode, hmeta, hopen]
  · intro vm func msg id rest hstack hmeta
    obtain ⟨stk, cs, fns, gl, hp, reg, cid, gt, mb, sp⟩ := vm
    simp only at hstack hmeta
    subst hstack
    simp [execOpcode, hmeta]

/-- Witness for C9: a send to a registered open-mailbox actor appends the
message; a send to an unregistered id is dropped. -/
theorem send_never_blocks_or_fails_witness :
    (execOpcode
        { (VMState.new []) with
          stack := [Value.int 7, Value.actor 1],
          registry :=
            { actors := [(1, ⟨1, "echo", [], none, [], SupervisionPolicy.oneForOne,
                              ActorStatus.running, [], true⟩)],
              next_id := 2 } }
        addIR Opcode.send = StepOut.next
        { (VMState.new []) with
          stack := [],
          registry :=
            { actors := [(1, ⟨1, "echo", [], none, [], SupervisionPolicy.oneForOne,
                              ActorStatus.running, [Value.int 7], true⟩)],
              next_id := 2 } })
    ∧ (execOpcode { (VMState.new []) with stack := [Value.int 7, Value.actor 3] }
        addIR Opcode.send =
          StepOut.next { (VMState.new []) with stack := [] }) := by
  constructor
  · have h := send_never_blocks_or_fails.1
      { (VMState.new []) with
        stack := [Value.int 7, Value.actor 1],
        registry :=
          { actors := [(1, ⟨1, "echo", [], none, [], SupervisionPolicy.oneForOne,
                            ActorStatus.running, [], true⟩)],
            next_id := 2 } }
      addIR (Value.int 7) 1 []
      ⟨1, "echo", [], none, [], SupervisionPolicy.oneForOne, ActorStatus.running, [], true⟩
      rfl (by decide) rfl
    rw [h]
    rfl
  · exact send_never_blocks_or_fails.2.2
      { (VMState.new []) with stack := [Value.int 7, Value.actor 3] }
      addIR (Value.int 7) 3 [] rfl (by decide)


/-! ### Deadlock sentinel (claim C7) -/

/-- C7: the sentinel broadcasts exactly when every registered actor is
`BlockedOnReceive` or terminal (`Stopped`/`Failed`) and at least one is
`BlockedOnReceive` (so never while any actor is `Running`), and an actor
blocked in `Receive` that observes the signal fails with the
deadlock-abort error. -/
theorem deadlock_sentinel_fires_iff :
    (∀ reg : ActorRegistry, sentinelFires reg = true ↔
      ((∀ m ∈ reg.actors, m.2.status = ActorStatus.blockedOnReceive ∨
          m.2.status = ActorStatus.stopped ∨ m.2.status = ActorStatus.failed)
       ∧ ∃ m ∈ reg.actors, m.2.status = ActorStatus.blockedOnReceive))
    ∧ (∀ vm : VMState,
        receiveResume vm SelectArm.deadlock =
          StepOut.fail "Execution aborted due to deadlock" vm) := by
  constructor
  · intro reg
    unfold sentinelFires
    by_cases h0 : reg.actors.length = 0
    · have hnil : reg.actors = [] := List.length_eq_zero.mp h0
      simp [h0, hnil]
    · simp only [h0, if_false, Bool.and_eq_true, decide_eq_true_eq]
      constructor
      · intro ⟨hact, hblk⟩
        have hact' := List.countP_eq_zero.mp hact
        constructor
        · intro m hm
          have hne := hact' m hm
          simp only [decide_eq_true_eq] at hne
          cases hst : m.2.status <;> simp_all
        · obtain ⟨m, hm, hp⟩ := List.countP_pos.mp hblk
          simp only [decide_eq_true_eq] at hp
          exact ⟨m, hm, hp⟩
      · intro ⟨hall, m, hm, hblk⟩
        constructor
        · apply List.countP_eq_zero.mpr
          intro a ha
          have := hall a ha
          simp only [decide_eq_true_eq]
          rcases this with hh | hh | hh <;> rw [hh] <;> intro hc <;> cases hc
        · have : 0 < reg.actors.countP
              (fun a => decide (a.2.status = ActorStatus.blockedOnReceive)) := by
            apply List.countP_pos.mpr
            exact ⟨m, hm, by simp [hblk]⟩
          omega
  · intro vm
    rfl

/-! ### Specializer idempotence (claim C3) -/

/-- C3 (code bug): specialization is *not* idempotent — the slot cache is
never reset between `optimize` calls, so `f() = LoadVar x; StoreVar x; Ret`
specialized twice by the same `BytecodeOptimizer` yields `Generic(LoadVar x)`
the first time (unknown slot) and `LoadLocalFast 0` the second time (the slot
cached by the first run's `StoreVar` leaks into the second run). -/
theorem specializer_not_idempotent :
    (BytecodeOptimizer.new.optimize loadBeforeStoreIR).2.blocks ≠
      ((BytecodeOptimizer.new.optimize loadBeforeStoreIR).1.optimize loadBeforeStoreIR).2.blocks
    ∧ (BytecodeOptimizer.new.optimize loadBeforeStoreIR).2.blocks =
        [⟨"entry", [⟨SpecializedOpcode.generic (Opcode.loadVar "x")⟩,
                    ⟨SpecializedOpcode.storeLocalFast 0⟩,
                    ⟨SpecializedOpcode.generic Opcode.ret⟩]⟩]
    ∧ ((BytecodeOptimizer.new.optimize loadBeforeStoreIR).1.optimize loadBeforeStoreIR).2.blocks =
        [⟨"entry", [⟨SpecializedOpcode.loadLocalFast 0⟩,
                    ⟨SpecializedOpcode.storeLocalFast 0⟩,
                    ⟨SpecializedOpcode.generic Opcode.ret⟩]⟩] :=
  ⟨by decide, by decide, by decide⟩

/-! ### Interpreter / native-code tier divergence (claim C1) -/

/-- C1 (code bug): the interpreter and the native code generator disagree.
For `branchIR` (a `JmpIfFalse` that is not the last instruction of its
block), the interpreter on argument `Int 1` continues with the instructions
after the untaken branch and returns `Int 5`, while the emitted native code
terminates the block at the branch (`terminated` flag) and falls through to
the *next block*, returning `7`.  For `divIR` (`1/0`), the interpreter
returns the division-by-zero error while the emitted `sdiv` traps. -/
theorem jit_interpreter_divergence :
    alookup (OptimizedVM.new.load_program [branchIR, divIR]).functions "f" = some branchSpec
    ∧ alookup (OptimizedVM.new.load_program [branchIR, divIR]).functions "g" = some divSpec
    ∧ ((OptimizedVM.new.load_program [branchIR, divIR]).execute 30 "f" [Value.int 1]).2 =
        ExecOut.ok (Value.int 5)
    ∧ jitCall branchSpec 20 [1] = JitOut.ret 7
    ∧ ((OptimizedVM.new.load_program [branchIR, divIR]).execute 30 "g" []).2 =
        ExecOut.err "Division by zero"
    ∧ jitCall divSpec 20 [] = JitOut.trap :=
  ⟨by decide, by decide, by decide, by decide, by decide, by decide⟩


/-! ### GC correctness (claim C2) -/

/-- C2: after `gc` with roots = operand stack ∪ every frame's locals ∪
globals completes, every index reachable from the roots (through struct
fields, cycles included) still holds the same slot content; every occupied
index not reachable from the roots has been cleared and pushed onto the free
list; and — the mark array having been cleared at the start of the cycle —
the final mark bits record exactly the indices reachable in this cycle. -/
theorem gc_preserves_reachable_frees_unreachable (h : Heap) (stack : List Value)
    (call_stack : List Frame) (globals : List (String × Value))
    (hwf : h.wf)
    (hroots : ∀ v ∈ gcRoots stack call_stack globals, valueInBounds h.objects.length v) :
    ∃ h', h.gc stack call_stack globals = some h' ∧
      (∀ i, ReachesW h.objects (gcRoots stack call_stack globals) i →
         h'.objects.get? i = h.objects.get? i) ∧
      (∀ i o, h.objects.get? i = some (some o) →
         ¬ ReachesW h.objects (gcRoots stack call_stack globals) i →
         h'.objects.get? i = some none ∧ i ∈ h'.free_list) ∧
      (∀ i, i < h.objects.length →
         (h'.marked.get? i = some true ↔
            ReachesW h.objects (gcRoots stack call_stack globals) i)) :=
  gcRun_correct h (gcRoots stack call_stack globals) hwf hroots

/-- Witness for C2: a heap with a two-object reachable chain and one garbage
string, collected with the struct as the only stack root. -/
theorem gc_preserves_reachable_frees_unreachable_witness :
    ∃ h', witnessHeap.gc [Value.object 0] [] [] = some h' ∧
      (∀ i, ReachesW witnessHeap.objects (gcRoots [Value.object 0] [] []) i →
         h'.objects.get? i = witnessHeap.objects.get? i) ∧
      (∀ i o, witnessHeap.objects.get? i = some (some o) →
         ¬ ReachesW witnessHeap.objects (gcRoots [Value.object 0] [] []) i →
         h'.objects.get? i = some none ∧ i ∈ h'.free_list) ∧
      (∀ i, i < witnessHeap.objects.length →
         (h'.marked.get? i = some true ↔
            ReachesW witnessHeap.objects (gcRoots [Value.object 0] [] []) i)) :=
  gc_preserves_reachable_frees_unreachable witnessHeap [Value.object 0] [] []
    (by decide) (by decide)

/-! ### Heap structural invariant (claim C10) -/

theorem sweepFrom_free_sub : ∀ (l : List Nat) (h : Heap) (j : Nat),
    j ∈ (sweepFrom h l).free_list → j ∈ h.free_list ∨ j ∈ l := by
  intro l
  induction l with
  | nil => intro h j hj; exact Or.inl hj
  | cons i rest ih =>
    intro h j hj
    rw [sweepFrom] at hj
    split at hj
    · rcases ih _ _ hj with hh | hh
      · rcases List.mem_append.mp hh with hh | hh
        · exact Or.inl hh
        · simp only [List.mem_singleton] at hh
          exact Or.inr (by simp [hh])
      · exact Or.inr (List.mem_cons_of_mem _ hh)
    · rcases ih _ _ hj with hh | hh
      · exact Or.inl hh
      · exact Or.inr (List.mem_cons_of_mem _ hh)

theorem alloc_inv {h : Heap} (obj : HeapObject) (hinv : h.inv) :
    (h.alloc obj).1.inv ∧ (h.alloc obj).2 < (h.alloc obj).1.objects.length ∧
      (h.alloc obj).2 < (h.alloc obj).1.marked.length := by
  obtain ⟨hlen, hfree⟩ := hinv
  unfold Heap.alloc
  cases hl : h.free_list.getLast? with
  | some idx =>
    have hmem : idx ∈ h.free_list := List.mem_of_getLast?_eq_some hl
    have hidx : idx < h.objects.length := hfree idx hmem
    refine ⟨⟨by simpa using hlen, ?_⟩, by simpa using hidx, by simp; omega⟩
    intro i hi
    simp only [List.dropLast] at hi
    have : i ∈ h.free_list := List.dropLast_subset h.free_list hi
    simpa using hfree i this
  | none =>
    refine ⟨⟨by simp [hlen], ?_⟩, by simp, by simp [← hlen]⟩
    intro i hi
    simp only at hi
    have := hfree i hi
    simp
    omega

theorem gcRun_inv {h h' : Heap} {roots : List Value} (hgc : h.gcRun roots = some h')
    (hinv : h.inv) : h'.inv := by
  obtain ⟨hlen, hfree⟩ := hinv
  simp only [Heap.gcRun] at hgc
  cases hmw : markWork { h with marked := h.marked.map (fun _ => false) } roots with
  | none => rw [hmw] at hgc; cases hgc
  | some h1 =>
    rw [hmw] at hgc
    cases hgc
    obtain ⟨hf1, hf2, hf3⟩ := markWork_frame _ _ _ hmw
    have h1obj : h1.objects = h.objects := hf1
    have h1free : h1.free_list = h.free_list := hf2
    constructor
    · rw [sweepFrom_objects_length, sweepFrom_marked, h1obj, hf3]
      simpa using hlen
    · intro i hi
      rcases sweepFrom_free_sub _ _ _ hi with hi | hi
      · rw [sweepFrom_objects_length, h1obj]
        rw [h1free] at hi
        exact hfree i hi
      · rw [sweepFrom_objects_length]
        exact List.mem_range.mp hi

/-- C10: the heap preserves `objects.len() == marked.len()` (together with
in-bounds free-list indices) across construction, both `alloc` paths, and
`gc`; every index returned by `alloc` is in bounds for both arrays, and the
mark-bit access for such an index is in bounds. -/
theorem heap_length_invariant :
    Heap.new.inv
    ∧ (∀ (h : Heap) (obj : HeapObject), h.inv →
        (h.alloc obj).1.inv ∧ (h.alloc obj).2 < (h.alloc obj).1.objects.length ∧
          (h.alloc obj).2 < (h.alloc obj).1.marked.length)
    ∧ (∀ (h h' : Heap) (stack : List Value) (call_stack : List Frame)
         (globals : List (String × Value)),
        h.gc stack call_stack globals = some h' → h.inv → h'.inv)
    ∧ (∀ (h : Heap) (obj : HeapObject), h.inv →
        ∃ b, (h.alloc obj).1.marked.get? (h.alloc obj).2 = some b) := by
  refine ⟨⟨rfl, by simp [Heap.new]⟩, fun h obj hinv => alloc_inv obj hinv,
          fun h h' stack cs gl hgc hinv => gcRun_inv hgc hinv, ?_⟩
  intro h obj hinv
  obtain ⟨_, _, hm⟩ := alloc_inv obj hinv
  cases hx : (h.alloc obj).1.marked.get? (h.alloc obj).2 with
  | none =>
    have := List.get?_eq_none.mp hx
    omega
  | some b => exact ⟨b, rfl⟩

/-- Witness for C10: the invariant clauses applied at a concrete heap (and a
concretely computed `gc` run on the empty heap). -/
theorem heap_length_invariant_witness :
    ((witnessHeap.alloc (HeapObject.str "u")).1.inv
      ∧ (witnessHeap.alloc (HeapObject.str "u")).2 <
          (witnessHeap.alloc (HeapObject.str "u")).1.objects.length
      ∧ (witnessHeap.alloc (HeapObject.str "u")).2 <
          (witnessHeap.alloc (HeapObject.str "u")).1.marked.length)
    ∧ Heap.new.inv
    ∧ (∃ b, (witnessHeap.alloc (HeapObject.str "u")).1.marked.get?
              (witnessHeap.alloc (HeapObject.str "u")).2 = some b) := by
  refine ⟨heap_length_invariant.2.1 witnessHeap _ (by decide), ?_,
          heap_length_invariant.2.2.2 witnessHeap _ (by decide)⟩
  have hgc : Heap.new.gc [] [] [] = some Heap.new := by
    simp [Heap.gc, Heap.gcRun, gcRoots, fieldValues, markWork_nil, Heap.new,
          sweepFrom, List.range]
  exact heap_length_invariant.2.2.1 Heap.new Heap.new [] [] [] hgc (by decide)

end Grok
